import Mathlib

/-!
Shallow embedding of the Tru11 / TBug11 68HC11 programmer protocol engine
(`src/Tru11/Tru11_app/tru11/main.cpp` and `src/TBug11/TBug11_app/tbug11/main.cpp`).

The serial transport collaborator is modelled by `serial_com`:
* writes are logged in `txTrace` (one entry per `write_port` call); the number of
  bytes the OS reports as transferred for call number `i` requesting `n` bytes is
  `wr i n` (a perfect transport has `wr i n = n`);
* the device's outgoing bytes are a predetermined `stream`; `read_port len`
  delivers `stream.take len` (fewer than `len` bytes when the device sends
  nothing more before the timeout) and drops them from the stream.

Machine integers are modelled as `Nat` with explicit `% 256` / `% 65536`
where the C++ performs `uint8_t` / `uint16_t` casts or wraparound.
C++ strings are modelled as `List Char`.
-/

def BOOTLOADER_MAX_BYTE_COUNT : Nat := 256
def TALKER_MAX_BYTE_COUNT : Nat := 256
/-- Tru11 read command opcode. TBug11 uses the same value `0x01`. -/
def TALKER_READ_CMD : Nat := 0x01
/-- Tru11 write command opcode (`0x02`). -/
def TALKER_WRITE_CMD : Nat := 0x02
/-- TBug11 write command opcode (`0x41`, JBug11 talker). -/
def TBUG11_WRITE_CMD : Nat := 0x41
def SREC_ADDR_CHECKSUM_COUNT : Nat := 3
def HC11_CONFIG_ADDR : Nat := 0x103f

/-- Value of a hexadecimal digit character, if it is one. -/
def hexDigitVal (c : Char) : Option Nat :=
  if '0' ≤ c ∧ c ≤ '9' then some (c.toNat - 48)
  else if 'A' ≤ c ∧ c ≤ 'F' then some (c.toNat - 55)
  else if 'a' ≤ c ∧ c ≤ 'f' then some (c.toNat - 87)
  else none

/-- Accumulator loop of `strtoul(s, NULL, 16)`: consume leading hex digits,
stop at the first non-digit. An empty or non-digit string yields 0. -/
def hexAcc : Nat → List Char → Nat
  | v, [] => v
  | v, c :: cs =>
    match hexDigitVal c with
    | some d => hexAcc (16 * v + d) cs
    | none => v

/-- `strtoul(s, NULL, 16)` on the short substrings the programs extract. -/
def strtoul16 (cs : List Char) : Nat := hexAcc 0 cs

/-- `(uint8_t)strtoul(line.substr(pos, 2).c_str(), NULL, 16)`. -/
def hexByte (line : List Char) (pos : Nat) : Nat :=
  strtoul16 ((line.drop pos).take 2) % 256

/-- `(uint16_t)strtoul(line.substr(pos, 4).c_str(), NULL, 16)`. -/
def hexQuad (line : List Char) (pos : Nat) : Nat :=
  strtoul16 ((line.drop pos).take 4) % 65536

/-- The `tru_exception` kinds thrown by the protocol engine, with the numeric
values passed to the message format string.  `verify_echo` formats the sent
byte and the received byte; `verify_echo_com` formats the sent byte and the
bitwise complement of the received byte (see those definitions). -/
inductive TruErr where
  | txFail (req xferred : Nat)
  | rxFail (req xferred : Nat)
  | echoMismatch (sent received : Nat)
  | talkerTooBig
deriving DecidableEq

/-- Echo-verification policy of TBug11's `txrx_chunk` (`talker_echo_e`). -/
inductive talker_echo_e where
  | TALKER_ECHO_IGNORE
  | TALKER_ECHO_VERIFY_COM
  | TALKER_ECHO_VERIFY
deriving DecidableEq

/-- Model of the serial transport collaborator (see the file comment). -/
structure serial_com where
  wr : Nat → Nat → Nat
  widx : Nat
  txTrace : List (List Nat)
  stream : List Nat

/-- Log one transport write call. -/
def pushTx (p : serial_com) (chunk : List Nat) : serial_com :=
  serial_com.mk p.wr (p.widx + 1) (p.txTrace ++ [chunk]) p.stream

/-- Consume `n` device bytes from the stream. -/
def dropStream (p : serial_com) (n : Nat) : serial_com :=
  serial_com.mk p.wr p.widx p.txTrace (p.stream.drop n)

/-- `serial_com::write_port(buf, len)`: performs the write (logged) and
returns the transferred count reported by the OS. -/
def write_port (p : serial_com) (chunk : List Nat) : serial_com × Nat :=
  (pushTx p chunk, p.wr p.widx chunk.length)

/-- `serial_com::read_port(buf, len)`: delivers the next device bytes,
possibly fewer than `len` when the device stops sending (timeout). -/
def read_port (p : serial_com) (len : Nat) : serial_com × List Nat :=
  (dropStream p len, p.stream.take len)

/-- A transport whose writes always transfer the requested count. -/
def wr_ok : Nat → Nat → Nat := fun _ len => len

/-- A fresh perfect-write port whose device will send `s`. -/
def mkPort (s : List Nat) : serial_com := serial_com.mk wr_ok 0 [] s

/-- The `cl_my_params` fields the protocol engine reads. -/
structure cl_my_params where
  serial_txbuf_size : Nat
  serial_rxbuf_size : Nat
  serial_prog_txbuf_size : Nat
  srec_datalen : Nat
  from_addr : Nat
  to_addr : Nat
  verify_config : Bool

/-!  `tx_chunk` / `rx_chunk` / `txrx_chunk` loop on `remaining`, taking
`min remaining bufsize` bytes per iteration.  The fuel argument of the `_go`
helpers equals the initial byte count; each iteration moves at least one byte
whenever the buffer size is ≥ 1, so the fuel is never exhausted then.  (With a
buffer size of 0 the C++ loops forever; all claims assume size ≥ 1.)  -/

/-- Loop body of `tx_chunk` (identical in both programs). -/
def tx_chunk_go (prm : cl_my_params) : Nat → serial_com → List Nat →
    serial_com × Option TruErr
  | 0, p, _ => (p, none)
  | fuel + 1, p, data =>
    if data = [] then (p, none)
    else
      let chunk := data.take prm.serial_txbuf_size
      let w := write_port p chunk
      if w.2 = chunk.length then
        tx_chunk_go prm fuel w.1 (data.drop prm.serial_txbuf_size)
      else (w.1, some (TruErr.txFail chunk.length w.2))

/-- `tx_chunk`: generic transmit in blocks of `serial_txbuf_size`.
Throws `APP_ERROR_TX_FAIL` when a write's transferred count differs from the
requested chunk length. -/
def tx_chunk (prm : cl_my_params) (p : serial_com) (data : List Nat) :
    serial_com × Option TruErr :=
  tx_chunk_go prm data.length p data

/-- Loop body of `rx_chunk` (identical in both programs). -/
def rx_chunk_go (prm : cl_my_params) : Nat → serial_com → Nat →
    serial_com × Option TruErr × List Nat
  | 0, p, _ => (p, none, [])
  | fuel + 1, p, len =>
    if len = 0 then (p, none, [])
    else
      let chunklen := min len prm.serial_rxbuf_size
      let r := read_port p chunklen
      if r.2.length = chunklen then
        let t := rx_chunk_go prm fuel r.1 (len - chunklen)
        (t.1, t.2.1, r.2 ++ t.2.2)
      else (r.1, some (TruErr.rxFail chunklen r.2.length), r.2)

/-- `rx_chunk`: generic receive in blocks of `serial_rxbuf_size`.
Throws `APP_ERROR_RX_FAIL` when a read delivers fewer bytes than requested. -/
def rx_chunk (prm : cl_my_params) (p : serial_com) (len : Nat) :
    serial_com × Option TruErr × List Nat :=
  rx_chunk_go prm len p len

/-- `verify_echo` (both programs): throws `APP_ERROR_ECHO` at the first index
where the received byte differs from the transmitted byte.  The exception's
format arguments are `txbuf[i]` and `rxbuf[i]` — the index is not part of the
error. -/
def verify_echo : List Nat → List Nat → Option TruErr
  | t :: ts, r :: rs =>
    if t ≠ r then some (TruErr.echoMismatch t r) else verify_echo ts rs
  | _, _ => none

/-- TBug11's `verify_echo_com`: throws at the first index where
`txbuf[i] != (uint8_t)~rxbuf[i]`.  The exception's format arguments are
`txbuf[i]` and `(uint8_t)~rxbuf[i]` — the complement of the received byte,
and again no index. -/
def verify_echo_com : List Nat → List Nat → Option TruErr
  | t :: ts, r :: rs =>
    if t ≠ 255 - r % 256 then some (TruErr.echoMismatch t (255 - r % 256))
    else verify_echo_com ts rs
  | _, _ => none

/-- Loop body of TBug11's `txrx_chunk` (write a chunk, read back an
equal-length chunk, apply the echo policy). -/
def txrx_chunk_go (prm : cl_my_params) (ec : talker_echo_e) :
    Nat → serial_com → List Nat → serial_com × Option TruErr × List Nat
  | 0, p, _ => (p, none, [])
  | fuel + 1, p, data =>
    if data = [] then (p, none, [])
    else
      let chunk := data.take prm.serial_txbuf_size
      let w := write_port p chunk
      if w.2 = chunk.length then
        let r := rx_chunk prm w.1 chunk.length
        match r.2.1 with
        | some e => (r.1, some e, r.2.2)
        | none =>
          let v : Option TruErr :=
            match ec with
            | talker_echo_e.TALKER_ECHO_VERIFY => verify_echo chunk r.2.2
            | talker_echo_e.TALKER_ECHO_VERIFY_COM => verify_echo_com chunk r.2.2
            | talker_echo_e.TALKER_ECHO_IGNORE => none
          match v with
          | some e => (r.1, some e, r.2.2)
          | none =>
            let t := txrx_chunk_go prm ec fuel r.1 (data.drop prm.serial_txbuf_size)
            (t.1, t.2.1, r.2.2 ++ t.2.2)
      else (w.1, some (TruErr.txFail chunk.length w.2), [])

/-- TBug11's `txrx_chunk` with its three-valued echo policy. -/
def txrx_chunk (prm : cl_my_params) (p : serial_com) (data : List Nat)
    (ec : talker_echo_e) : serial_com × Option TruErr × List Nat :=
  txrx_chunk_go prm ec data.length p data

/-- Tru11's `txrx_chunk` takes a boolean `arg_verify_echo` and, when it is
set, verifies with the direct-equality `verify_echo`; otherwise no check. -/
def tru11_txrx_chunk (prm : cl_my_params) (p : serial_com) (data : List Nat)
    (verify : Bool) : serial_com × Option TruErr × List Nat :=
  txrx_chunk prm p data
    (if verify then talker_echo_e.TALKER_ECHO_VERIFY
     else talker_echo_e.TALKER_ECHO_IGNORE)

/-- The chunk decomposition performed by the block loops: pieces of
`min remaining bufsize` bytes. -/
def chunkList_go (B : Nat) : Nat → List Nat → List (List Nat)
  | 0, _ => []
  | _ + 1, [] => []
  | fuel + 1, data => data.take B :: chunkList_go B fuel (data.drop B)

/-- Chunks of `data` in transmission order for buffer size `B`. -/
def chunkList (B : Nat) (data : List Nat) : List (List Nat) :=
  chunkList_go B data.length data

/-- Loop body of Tru11's `txrx_chunk_write`: write a chunk (sized by the
programming buffer when `arg_is_prog`), then receive an equal-length chunk
with no echo verification. -/
def txrx_chunk_write_go (prm : cl_my_params) (is_prog : Bool) :
    Nat → serial_com → List Nat → serial_com × Option TruErr × List Nat
  | 0, p, _ => (p, none, [])
  | fuel + 1, p, data =>
    if data = [] then (p, none, [])
    else
      let B := if is_prog then prm.serial_prog_txbuf_size else prm.serial_txbuf_size
      let chunk := data.take B
      let w := write_port p chunk
      if w.2 = chunk.length then
        let r := rx_chunk prm w.1 chunk.length
        match r.2.1 with
        | some e => (r.1, some e, r.2.2)
        | none =>
          let t := txrx_chunk_write_go prm is_prog fuel r.1 (data.drop B)
          (t.1, t.2.1, r.2.2 ++ t.2.2)
      else (w.1, some (TruErr.txFail chunk.length w.2), [])

/-- Tru11's `txrx_chunk_write`. -/
def txrx_chunk_write (prm : cl_my_params) (p : serial_com) (data : List Nat)
    (is_prog : Bool) : serial_com × Option TruErr × List Nat :=
  txrx_chunk_write_go prm is_prog data.length p data

/-- Loop body of `txrx_chunk_control_program` (identical in both programs).
Non-final chunks are received and verified with `verify_echo` (fatal on
mismatch or short read).  For the final chunk: when it is a single byte, the
code wraps the read and the verify in a `try` whose `catch` discards the
exception, so the outcome is success no matter what the device sends (the
read is still issued and consumes one pending byte); when it is longer, all
bytes but the last are received and verified fatally, and the last byte gets
the same swallowed read-and-verify treatment. -/
def txrx_chunk_control_program_go (prm : cl_my_params) :
    Nat → serial_com → List Nat → serial_com × Option TruErr
  | 0, p, _ => (p, none)
  | fuel + 1, p, data =>
    if data = [] then (p, none)
    else
      let chunk := data.take prm.serial_txbuf_size
      let rest := data.drop prm.serial_txbuf_size
      let w := write_port p chunk
      if w.2 = chunk.length then
        if rest = [] then
          if chunk.length = 1 then
            ((read_port w.1 1).1, none)
          else
            let r := rx_chunk prm w.1 (chunk.length - 1)
            match r.2.1 with
            | some e => (r.1, some e)
            | none =>
              match verify_echo (chunk.take (chunk.length - 1)) r.2.2 with
              | some e => (r.1, some e)
              | none => ((read_port r.1 1).1, none)
        else
          let r := rx_chunk prm w.1 chunk.length
          match r.2.1 with
          | some e => (r.1, some e)
          | none =>
            match verify_echo chunk r.2.2 with
            | some e => (r.1, some e)
            | none => txrx_chunk_control_program_go prm fuel r.1 rest
      else (w.1, some (TruErr.txFail chunk.length w.2))

/-- `txrx_chunk_control_program`: the bootstrap download transfer. -/
def txrx_chunk_control_program (prm : cl_my_params) (p : serial_com)
    (data : List Nat) : serial_com × Option TruErr :=
  txrx_chunk_control_program_go prm data.length p data

/-!  `send_control_program`: reading the talker S-record file into the
256-byte buffer, then the download.  The inner loop appends the data bytes of
each accepted S1 line to the buffer, throwing `APP_ERROR_TALKER_TOO_BIG`
when `byte_index` already equals `BOOTLOADER_MAX_BYTE_COUNT` as the next byte
is about to be stored. -/

/-- The per-line data loop of `send_control_program`: append `r` more data
bytes of `line` (starting at data index `i`, character position `8 + 2*i`),
erroring as the 257th buffer byte is reached. -/
def read_talker_go (line : List Char) : Nat → Nat → List Nat →
    Except TruErr (List Nat)
  | 0, _, acc => Except.ok acc
  | r + 1, i, acc =>
    if acc.length = BOOTLOADER_MAX_BYTE_COUNT then Except.error TruErr.talkerTooBig
    else read_talker_go line r (i + 1) (acc ++ [hexByte line (8 + 2 * i)])

/-- One iteration of `send_control_program`'s file loop: accept the line only
if it is longer than 8 characters, starts with `S1`, and its byte-count field
is positive, at least `(line.size - 4) / 2`, and greater than 3. -/
def read_talker_line (acc : List Nat) (line : List Char) :
    Except TruErr (List Nat) :=
  if 8 < line.length ∧ line.take 2 = ['S', '1'] then
    let srec_bytecount := hexByte line 2
    if 0 < srec_bytecount ∧ (line.length - 4) / 2 ≤ srec_bytecount then
      if SREC_ADDR_CHECKSUM_COUNT < srec_bytecount then
        read_talker_go line (srec_bytecount - SREC_ADDR_CHECKSUM_COUNT) 0 acc
      else Except.ok acc
    else Except.ok acc
  else Except.ok acc

/-- The whole file loop of `send_control_program`. -/
def read_talker_bytes : List (List Char) → List Nat → Except TruErr (List Nat)
  | [], acc => Except.ok acc
  | l :: ls, acc =>
    match read_talker_line acc l with
    | Except.error e => Except.error e
    | Except.ok acc2 => read_talker_bytes ls acc2

/-- The data bytes a single line contributes (closed form used in claim
statements; `read_talker_eq` relates it to the loop above). -/
def srec_line_data (line : List Char) : List Nat :=
  if 8 < line.length ∧ line.take 2 = ['S', '1'] then
    let srec_bytecount := hexByte line 2
    if 0 < srec_bytecount ∧ (line.length - 4) / 2 ≤ srec_bytecount ∧
        SREC_ADDR_CHECKSUM_COUNT < srec_bytecount then
      (List.range (srec_bytecount - SREC_ADDR_CHECKSUM_COUNT)).map
        (fun i => hexByte line (8 + 2 * i))
    else []
  else []

/-- All data bytes the talker file yields, in file order. -/
def talker_data (lines : List (List Char)) : List Nat :=
  (lines.map srec_line_data).flatten

/-- `send_control_program`: read the file into the buffer, pad the buffer
with `0x00` to 256 bytes, transmit the unechoed `0xff` sync byte with
`tx_chunk`, then transmit the 256 buffer bytes with
`txrx_chunk_control_program`. -/
def send_control_program (prm : cl_my_params) (p : serial_com)
    (lines : List (List Char)) : serial_com × Option TruErr :=
  match read_talker_bytes lines [] with
  | Except.error e => (p, some e)
  | Except.ok bytes =>
    let buf := bytes ++ List.replicate (BOOTLOADER_MAX_BYTE_COUNT - bytes.length) 0
    let t := tx_chunk prm p [0xff]
    match t.2 with
    | some e => (t.1, some e)
    | none => txrx_chunk_control_program prm t.1 buf

/-!  Command/parameter framing shared by the memory operations.  Every
operation first puts the opcode in `txbuf[0]` and sends it as a one-byte
`txrx_chunk` — Tru11 with `arg_verify_echo = true` (direct `verify_echo`),
TBug11 with `TALKER_ECHO_VERIFY_COM` — then transmits the three parameter bytes
`[count, addr_hi, addr_lo]` with `tx_chunk`. -/

/-- Tru11's command-then-parameters phase (as in `readmem`,
`readmem_verify`, `writemem_hexstr`, `writemem_file`). -/
def tru11_cmd_params (prm : cl_my_params) (p : serial_com)
    (cmd count addr : Nat) : serial_com × Option TruErr :=
  let c := tru11_txrx_chunk prm p [cmd] true
  match c.2.1 with
  | some e => (c.1, some e)
  | none =>
    tx_chunk prm c.1 [count % 256, addr / 256 % 256, addr % 256]

/-- TBug11's command-then-parameters phase (complement echo check). -/
def tbug11_cmd_params (prm : cl_my_params) (p : serial_com)
    (cmd count addr : Nat) : serial_com × Option TruErr :=
  let c := txrx_chunk prm p [cmd] talker_echo_e.TALKER_ECHO_VERIFY_COM
  match c.2.1 with
  | some e => (c.1, some e)
  | none =>
    tx_chunk prm c.1 [count % 256, addr / 256 % 256, addr % 256]

/-!  The per-byte comparison loop shared by `readmem_verify` and the
post-write verification in Tru11's `writemem_file`.  `srec_addr` is a
`uint16_t` that is incremented per byte; a byte is counted as ignored (and
never compared) when `verify_config` is off and the current address equals
`HC11_CONFIG_ADDR`; otherwise it is counted as mismatched when the expected
byte differs from the byte read back. -/

/-- The (mismatch, ignore) tallies of one line's comparison loop.
`expected` holds the file bytes (`readmem_verify`) or the transmitted bytes
(`writemem_file`); `got` holds the bytes read back from the device. -/
def verify_tally (vc : Bool) : Nat → List Nat → List Nat → Nat × Nat
  | _, [], _ => (0, 0)
  | _, _ :: _, [] => (0, 0)
  | addr, e :: es, g :: gs =>
    let t := verify_tally vc (addr + 1) es gs
    if vc = false ∧ addr % 65536 = HC11_CONFIG_ADDR then (t.1, t.2 + 1)
    else if e ≠ g then (t.1 + 1, t.2) else t

/-- One S1 line of Tru11's `readmem_verify`: parse the address (hex quad at
position 4) and the data count `(uint8_t)(byte-count field - 3)`, run the
read command and parameters, receive `srec_datacount` bytes with `rx_chunk`,
then tally.  Lines shorter than 8 characters or not starting with `S1` are
skipped.  (The file bytes are extracted with the same
`strtoul(line.substr(2*i + 8, 2))` the source uses; positions past the end of
the line read as 0.) -/
def readmem_verify_line (prm : cl_my_params) (p : serial_com)
    (line : List Char) : serial_com × Option TruErr × Nat × Nat :=
  if 8 ≤ line.length ∧ line.take 2 = ['S', '1'] then
    let srec_addr := hexQuad line 4
    let srec_datacount := (hexByte line 2 + 253) % 256
    let c := tru11_cmd_params prm p TALKER_READ_CMD srec_datacount srec_addr
    match c.2 with
    | some e => (c.1, some e, 0, 0)
    | none =>
      let r := rx_chunk prm c.1 srec_datacount
      match r.2.1 with
      | some e => (r.1, some e, 0, 0)
      | none =>
        let fileBytes :=
          (List.range srec_datacount).map (fun i => hexByte line (8 + 2 * i))
        let t := verify_tally prm.verify_config srec_addr fileBytes r.2.2
        (r.1, none, t.1, t.2)
  else (p, none, 0, 0)

/-- One S1 line of Tru11's `writemem_file`: parse count and address, run the
write command (`arg_write_cmd_code`) and parameters, transmit the line's data
bytes with `txrx_chunk_write` (programming-sized chunks unless the opcode is
the plain `TALKER_WRITE_CMD`), then tally the post-write readback against the
transmitted bytes. -/
def writemem_file_line (prm : cl_my_params) (p : serial_com)
    (write_cmd_code : Nat) (line : List Char) :
    serial_com × Option TruErr × Nat × Nat :=
  if 8 ≤ line.length ∧ line.take 2 = ['S', '1'] then
    let srec_datacount := (hexByte line 2 + 253) % 256
    let srec_addr := hexQuad line 4
    let c := tru11_cmd_params prm p write_cmd_code srec_datacount srec_addr
    match c.2 with
    | some e => (c.1, some e, 0, 0)
    | none =>
      let txBytes :=
        (List.range srec_datacount).map (fun i => hexByte line (8 + 2 * i))
      let w := txrx_chunk_write prm c.1 txBytes
        (decide (write_cmd_code ≠ TALKER_WRITE_CMD))
      match w.2.1 with
      | some e => (w.1, some e, 0, 0)
      | none =>
        let t := verify_tally prm.verify_config srec_addr txBytes w.2.2
        (w.1, none, t.1, t.2)
  else (p, none, 0, 0)

/-!  `readmem`'s S-record emission (identical in both programs): the bytes
read from the device are streamed into S1 records of `srec_datalen` data
bytes (a final partial record for the remainder).  The running `checksum` is
a `uint8_t`: it accumulates the line's address bytes, each data byte and
finally `datacount + 3`, and is then complemented; the byte-count field is
`datacount + 3`. -/

/-- An emitted S1 record's numeric fields. -/
structure srec_rec where
  bc : Nat
  addr_hi : Nat
  addr_lo : Nat
  data : List Nat
  checksum : Nat
deriving DecidableEq

/-- `uint8_t` accumulation `checksum += b` over a list. -/
def checksum8 (l : List Nat) : Nat :=
  l.foldl (fun c b => (c + b) % 256) 0

/-- Build one emitted S1 record for the line starting at `lineAddr`
(a `uint16_t` value, kept as `Nat` with explicit wrap). -/
def mk_srec (lineAddr : Nat) (data : List Nat) : srec_rec :=
  let hi := lineAddr / 256 % 256
  let lo := lineAddr % 256
  srec_rec.mk (data.length + SREC_ADDR_CHECKSUM_COUNT) hi lo data
    (255 - checksum8 ([hi, lo] ++ data ++ [data.length + SREC_ADDR_CHECKSUM_COUNT]))

/-- The record-emission loop of `readmem`: `cur` is the current line's data
so far, `lineAddr` the line's start address.  A record is flushed when the
line reaches `srec_datalen` bytes; a final partial record is flushed at the
end when nonempty. -/
def readmem_records_go (datalen : Nat) (lineAddr : Nat) (cur : List Nat) :
    List Nat → List srec_rec
  | [] => if cur = [] then [] else [mk_srec lineAddr cur]
  | b :: rest =>
    let cur2 := cur ++ [b]
    if cur2.length = datalen then
      mk_srec lineAddr cur2 :: readmem_records_go datalen (lineAddr + cur2.length) [] rest
    else readmem_records_go datalen lineAddr cur2 rest

/-- All S1 records `readmem` emits for the device bytes `bytes` when the
range starts at `from_addr`. -/
def readmem_records (datalen from_addr : Nat) (bytes : List Nat) :
    List srec_rec :=
  readmem_records_go datalen from_addr [] bytes

/-!  TBug11's EEPROM programming state machines.  Every step is one
`writemem_byte` transaction (command `0x41` confirmed by complement echo,
parameters `[1, addr_hi, addr_lo]`, then the value byte confirmed by direct
echo); for the sequence claims we track the `(address, value)` pokes these
transactions perform.  `TALKER_ERASE_PROG_DELAY` is 0, and the delay is not
observable in the poke trace. -/

/-- The `(address, value)` poke of one `writemem_byte` call
(`uint16_t` address, `uint8_t` value). -/
def writemem_byte (address byte : Nat) : List (Nat × Nat) :=
  [(address % 65536, byte % 256)]

/-- `eeprom_prog_byte`: latch on (`0x02`), store the byte, programming
voltage on (`0x03`), delay, all off (`0x00`). -/
def eeprom_prog_byte (address byte : Nat) : List (Nat × Nat) :=
  writemem_byte 0x103b 0x02 ++ writemem_byte address byte ++
    writemem_byte 0x103b 0x03 ++ writemem_byte 0x103b 0x00

/-- `eeprom_bulk_erase`: `0x06`, dummy byte, `0x07`, `0x00`. -/
def eeprom_bulk_erase (address byte : Nat) : List (Nat × Nat) :=
  writemem_byte 0x103b 0x06 ++ writemem_byte address byte ++
    writemem_byte 0x103b 0x07 ++ writemem_byte 0x103b 0x00

/-- `eeprom_row_erase`: `0x0e`, dummy byte, `0x0f`, `0x00`. -/
def eeprom_row_erase (address byte : Nat) : List (Nat × Nat) :=
  writemem_byte 0x103b 0x0e ++ writemem_byte address byte ++
    writemem_byte 0x103b 0x0f ++ writemem_byte 0x103b 0x00

/-- `eeprom_byte_erase`: `0x16`, dummy byte, `0x17`, `0x00`. -/
def eeprom_byte_erase (address byte : Nat) : List (Nat × Nat) :=
  writemem_byte 0x103b 0x16 ++ writemem_byte address byte ++
    writemem_byte 0x103b 0x17 ++ writemem_byte 0x103b 0x00

/-- The per-byte loop of TBug11's `write_ee`: for each of the `r` remaining
data bytes (data index `i`, current `srec_addr`), bulk-erase when the address
is the CONFIG register and byte-erase otherwise, then program the byte. -/
def write_ee_go (line : List Char) : Nat → Nat → Nat → List (Nat × Nat)
  | _, _, 0 => []
  | addr, i, r + 1 =>
    let txbyte := hexByte line (8 + 2 * i)
    ((if addr % 65536 = HC11_CONFIG_ADDR then eeprom_bulk_erase addr txbyte
      else eeprom_byte_erase addr txbyte) ++ eeprom_prog_byte addr txbyte) ++
      write_ee_go line (addr + 1) (i + 1) r

/-- The pokes one S1 line of `write_ee` performs (lines shorter than 8
characters or not starting with `S1` are skipped). -/
def write_ee_line (line : List Char) : List (Nat × Nat) :=
  if 8 ≤ line.length ∧ line.take 2 = ['S', '1'] then
    write_ee_go line (hexQuad line 4) 0 ((hexByte line 2 + 253) % 256)
  else []

/-! ## General list helpers -/

theorem getD_take_of_lt (l : List Nat) (i n : Nat) (h : i < n) :
    (l.take n).getD i 0 = l.getD i 0 := by
  show ((l.take n).get? i).getD 0 = (l.get? i).getD 0
  rw [List.get?_take h]

theorem getD_drop (l : List Nat) (i n : Nat) :
    (l.drop n).getD i 0 = l.getD (n + i) 0 := by
  show ((l.drop n).get? i).getD 0 = (l.get? (n + i)).getD 0
  rw [List.get?_drop]

theorem drop_set_of_le (l : List Nat) (m n : Nat) (a : Nat) (h : m ≤ n) :
    (l.set n a).drop m = (l.drop m).set (n - m) a := by
  apply List.ext
  intro i
  rw [List.get?_drop, List.get?_set, List.get?_set, List.get?_drop]
  by_cases hmn : n = m + i
  · have : n - m = i := by omega
    simp [hmn, this]
  · have : ¬(n - m = i) := by omega
    simp [hmn, this]

theorem dropLast_drop_comm (l : List Nat) (k : Nat) :
    (l.drop k).dropLast = l.dropLast.drop k := by
  rw [List.dropLast_eq_take, List.dropLast_eq_take, List.drop_take,
    List.length_drop]
  congr 1
  omega

/-! ## `chunkList` -/

theorem chunkList_go_congr (B : Nat) (hB : 1 ≤ B) :
    ∀ fuel1 fuel2 (data : List Nat), data.length ≤ fuel1 → data.length ≤ fuel2 →
      chunkList_go B fuel1 data = chunkList_go B fuel2 data := by
  intro fuel1
  induction fuel1 with
  | zero =>
    intro fuel2 data h1 _
    have hd : data = [] := by
      cases data with
      | nil => rfl
      | cons a l => simp at h1
    cases fuel2 with
    | zero => rfl
    | succ m => simp [hd, chunkList_go]
  | succ n ih =>
    intro fuel2 data h1 h2
    cases data with
    | nil =>
      cases fuel2 with
      | zero => rfl
      | succ m => simp [chunkList_go]
    | cons a l =>
      cases fuel2 with
      | zero => simp at h2
      | succ m =>
        simp only [chunkList_go]
        have hlen : ((a :: l).drop B).length ≤ n := by
          simp only [List.length_drop, List.length_cons]
          simp only [List.length_cons] at h1
          omega
        have hlen2 : ((a :: l).drop B).length ≤ m := by
          simp only [List.length_drop, List.length_cons]
          simp only [List.length_cons] at h2
          omega
        rw [ih m _ hlen hlen2]

theorem chunkList_nil (B : Nat) : chunkList B [] = [] := rfl

theorem chunkList_cons (B : Nat) (hB : 1 ≤ B) (data : List Nat)
    (hd : data ≠ []) :
    chunkList B data = data.take B :: chunkList B (data.drop B) := by
  cases data with
  | nil => exact absurd rfl hd
  | cons a l =>
    have e1 : chunkList B (a :: l) = chunkList_go B (l.length + 1) (a :: l) := rfl
    rw [e1]
    simp only [chunkList_go]
    congr 1
    exact chunkList_go_congr B hB l.length ((a :: l).drop B).length _
      (by simp only [List.length_drop, List.length_cons]; omega) (le_refl _)

theorem chunkList_single (B : Nat) (hB : 1 ≤ B) (data : List Nat)
    (hd : data ≠ []) (hlen : data.length ≤ B) :
    chunkList B data = [data] := by
  rw [chunkList_cons B hB data hd, List.take_of_length_le hlen,
    List.drop_eq_nil_of_le hlen, chunkList_nil]

theorem chunkList_go_flatten (B : Nat) (hB : 1 ≤ B) :
    ∀ fuel (data : List Nat), data.length ≤ fuel →
      (chunkList_go B fuel data).flatten = data := by
  intro fuel
  induction fuel with
  | zero =>
    intro data h
    cases data with
    | nil => rfl
    | cons a l => simp at h
  | succ n ih =>
    intro data h
    cases data with
    | nil => simp [chunkList_go]
    | cons a l =>
      show ((a :: l).take B :: chunkList_go B n ((a :: l).drop B)).flatten = a :: l
      rw [List.flatten_cons, ih _ (by rw [List.length_drop]; simp at h ⊢; omega)]
      exact List.take_append_drop B (a :: l)

theorem chunkList_flatten (B : Nat) (hB : 1 ≤ B) (data : List Nat) :
    (chunkList B data).flatten = data :=
  chunkList_go_flatten B hB data.length data (le_refl _)

theorem chunkList_length (B : Nat) (hB : 1 ≤ B) :
    ∀ fuel (data : List Nat), data.length ≤ fuel →
      (chunkList B data).length = (data.length + B - 1) / B := by
  intro fuel
  induction fuel with
  | zero =>
    intro data h
    have hdat : data = [] := List.length_eq_zero.mp (by omega)
    subst hdat
    rw [chunkList_nil]
    simp only [List.length_nil, Nat.zero_add]
    rw [Nat.div_eq_of_lt (by omega)]
  | succ n ih =>
    intro data h
    by_cases hd : data = []
    · subst hd
      rw [chunkList_nil]
      simp only [List.length_nil, Nat.zero_add]
      rw [Nat.div_eq_of_lt (by omega)]
    · have hl : 1 ≤ data.length := by
        cases data with
        | nil => exact absurd rfl hd
        | cons a l => simp
      rw [chunkList_cons B hB data hd]
      have hlen : (data.drop B).length ≤ n := by
        rw [List.length_drop]; omega
      rw [List.length_cons, ih _ hlen, List.length_drop]
      rcases Nat.le_total data.length B with hc | hc
      · rw [Nat.sub_eq_zero_of_le hc]
        simp only [Nat.zero_add]
        rw [Nat.div_eq_of_lt (by omega)]
        have h3 : (data.length + B - 1) / B = 1 :=
          Nat.div_eq_of_lt_le (by omega) (by omega)
        rw [h3]
      · have h2 : data.length + B - 1 = data.length - B + B - 1 + B := by omega
        rw [h2, Nat.add_div_right _ (by omega)]

theorem chunkList_sizes (B : Nat) (hB : 1 ≤ B) :
    ∀ fuel (data : List Nat), data.length ≤ fuel →
      ∀ j, j < (chunkList B data).length →
        ((chunkList B data).map List.length).getD j 0 =
          min (data.length - B * j) B := by
  intro fuel
  induction fuel with
  | zero =>
    intro data h j hj
    have : data = [] := List.length_eq_zero.mp (by omega)
    subst this
    simp [chunkList_nil] at hj
  | succ n ih =>
    intro data h j hj
    by_cases hd : data = []
    · subst hd; simp [chunkList_nil] at hj
    · have hl : 1 ≤ data.length := by
        cases data with
        | nil => exact absurd rfl hd
        | cons a l => simp
      rw [chunkList_cons B hB data hd] at hj ⊢
      have hlen : (data.drop B).length ≤ n := by
        rw [List.length_drop]; omega
      cases j with
      | zero =>
        simp [List.length_take]
        omega
      | succ k =>
        simp only [List.map_cons, List.getD_cons_succ]
        rw [List.length_cons] at hj
        rw [ih _ hlen k (by omega), List.length_drop]
        have : data.length - B - B * k = data.length - B * (k + 1) := by
          rw [Nat.mul_add]; omega
        rw [this]

/-! ## `tx_chunk` behaviour -/

theorem tx_chunk_go_spec (prm : cl_my_params) (hB : 1 ≤ prm.serial_txbuf_size) :
    ∀ fuel (data : List Nat) (p : serial_com), data.length ≤ fuel →
      (((tx_chunk_go prm fuel p data).2 = none ↔
          ∀ j, j < (chunkList prm.serial_txbuf_size data).length →
            p.wr (p.widx + j)
                (((chunkList prm.serial_txbuf_size data).map List.length).getD j 0) =
              ((chunkList prm.serial_txbuf_size data).map List.length).getD j 0) ∧
        ((tx_chunk_go prm fuel p data).2 = none →
          (tx_chunk_go prm fuel p data).1 =
            serial_com.mk p.wr
              (p.widx + (chunkList prm.serial_txbuf_size data).length)
              (p.txTrace ++ chunkList prm.serial_txbuf_size data) p.stream) ∧
        (∀ e, (tx_chunk_go prm fuel p data).2 = some e →
          ∃ req xf, e = TruErr.txFail req xf ∧ xf ≠ req)) := by
  intro fuel
  induction fuel with
  | zero =>
    intro data p h
    have hdat : data = [] := List.length_eq_zero.mp (by omega)
    subst hdat
    refine ⟨?_, ?_, ?_⟩
    · constructor
      · intro _ j hj
        rw [chunkList_nil] at hj
        simp at hj
      · intro _; rfl
    · intro _
      rw [chunkList_nil]
      cases p
      simp [tx_chunk_go]
    · intro e he
      simp [tx_chunk_go] at he
  | succ fuel ih =>
    intro data p h
    by_cases hd : data = []
    · subst hd
      refine ⟨?_, ?_, ?_⟩
      · constructor
        · intro _ j hj
          rw [chunkList_nil] at hj
          simp at hj
        · intro _; rfl
      · intro _
        rw [chunkList_nil]
        cases p
        simp [tx_chunk_go]
      · intro e he
        simp [tx_chunk_go] at he
    · have hl : 1 ≤ data.length := by
        cases data with
        | nil => exact absurd rfl hd
        | cons a l => simp
      have hstep : tx_chunk_go prm (fuel + 1) p data =
          if p.wr p.widx (data.take prm.serial_txbuf_size).length =
              (data.take prm.serial_txbuf_size).length then
            tx_chunk_go prm fuel (pushTx p (data.take prm.serial_txbuf_size))
              (data.drop prm.serial_txbuf_size)
          else (pushTx p (data.take prm.serial_txbuf_size),
            some (TruErr.txFail (data.take prm.serial_txbuf_size).length
              (p.wr p.widx (data.take prm.serial_txbuf_size).length))) := by
        simp only [tx_chunk_go, write_port, if_neg hd]
      have hck := chunkList_cons prm.serial_txbuf_size hB data hd
      have hlen2 : (data.drop prm.serial_txbuf_size).length ≤ fuel := by
        rw [List.length_drop]; omega
      by_cases hw : p.wr p.widx (data.take prm.serial_txbuf_size).length =
          (data.take prm.serial_txbuf_size).length
      · rw [hstep, if_pos hw]
        obtain ⟨ihiff, ihstate, iherr⟩ :=
          ih (data.drop prm.serial_txbuf_size)
            (pushTx p (data.take prm.serial_txbuf_size)) hlen2
        refine ⟨?_, ?_, iherr⟩
        · rw [ihiff]
          constructor
          · intro hall j hj
            rw [hck] at hj
            rw [hck]
            rw [List.length_cons] at hj
            cases j with
            | zero =>
              simpa using hw
            | succ k =>
              simp only [List.map_cons, List.getD_cons_succ]
              have hidx : p.widx + (k + 1) = p.widx + 1 + k := by omega
              rw [hidx]
              exact hall k (by omega)
          · intro hall j hj
            have hj1 : j + 1 < (chunkList prm.serial_txbuf_size data).length := by
              rw [hck, List.length_cons]; omega
            have := hall (j + 1) hj1
            rw [hck] at this
            simp only [List.map_cons, List.getD_cons_succ] at this
            have hidx : p.widx + (j + 1) = p.widx + 1 + j := by omega
            rw [hidx] at this
            exact this
        · intro hnone
          rw [ihstate hnone, hck]
          simp only [pushTx, List.length_cons]
          congr 1
          · omega
          · rw [List.append_assoc, List.singleton_append]
      · rw [hstep, if_neg hw]
        refine ⟨?_, ?_, ?_⟩
        · constructor
          · intro hcontra; simp at hcontra
          · intro hall
            exfalso
            have h0 : 0 < (chunkList prm.serial_txbuf_size data).length := by
              rw [hck, List.length_cons]; omega
            have := hall 0 h0
            rw [hck] at this
            simp only [List.map_cons, List.getD_cons_zero, Nat.add_zero] at this
            exact hw this
        · intro hcontra; simp at hcontra
        · intro e he
          simp only [Option.some_inj] at he
          refine ⟨_, _, he.symm, ?_⟩
          intro hc
          exact hw hc

/-! ## `rx_chunk` behaviour -/

theorem rx_chunk_go_ok (prm : cl_my_params) (hB : 1 ≤ prm.serial_rxbuf_size) :
    ∀ fuel len (p : serial_com), len ≤ fuel → len ≤ p.stream.length →
      rx_chunk_go prm fuel p len = (dropStream p len, none, p.stream.take len) := by
  intro fuel
  induction fuel with
  | zero =>
    intro len p h hs
    have hl : len = 0 := by omega
    subst hl
    cases p
    simp [rx_chunk_go, dropStream]
  | succ fuel ih =>
    intro len p h hs
    by_cases hl : len = 0
    · subst hl
      cases p
      simp [rx_chunk_go, dropStream]
    · have hc1 : 1 ≤ min len prm.serial_rxbuf_size := by omega
      have hdel : (p.stream.take (min len prm.serial_rxbuf_size)).length =
          min len prm.serial_rxbuf_size := by
        rw [List.length_take]
        omega
      have hstep : rx_chunk_go prm (fuel + 1) p len =
          (let t := rx_chunk_go prm fuel (dropStream p (min len prm.serial_rxbuf_size))
            (len - min len prm.serial_rxbuf_size)
           (t.1, t.2.1, p.stream.take (min len prm.serial_rxbuf_size) ++ t.2.2)) := by
        simp only [rx_chunk_go, if_neg hl, read_port]
        rw [if_pos hdel]
      rw [hstep]
      rw [ih (len - min len prm.serial_rxbuf_size)
        (dropStream p (min len prm.serial_rxbuf_size))
        (by omega)
        (by simp only [dropStream, List.length_drop]; omega)]
      simp only [dropStream, List.drop_drop]
      have h1 : min len prm.serial_rxbuf_size + (len - min len prm.serial_rxbuf_size) = len := by
        omega
      rw [h1]
      have h2 : p.stream.take (min len prm.serial_rxbuf_size) ++
          (p.stream.drop (min len prm.serial_rxbuf_size)).take (len - min len prm.serial_rxbuf_size) =
          p.stream.take len := by
        rw [← List.take_add, h1]
      rw [h2]

theorem rx_chunk_go_short (prm : cl_my_params) (hB : 1 ≤ prm.serial_rxbuf_size) :
    ∀ fuel len (p : serial_com), len ≤ fuel → p.stream.length < len →
      ∃ a b, (rx_chunk_go prm fuel p len).2.1 = some (TruErr.rxFail a b) ∧ b < a := by
  intro fuel
  induction fuel with
  | zero =>
    intro len p h hs
    omega
  | succ fuel ih =>
    intro len p h hs
    have hl : ¬(len = 0) := by omega
    by_cases hshort : p.stream.length < min len prm.serial_rxbuf_size
    · have hdel : (p.stream.take (min len prm.serial_rxbuf_size)).length =
          p.stream.length := by
        rw [List.length_take]; omega
      have hne : ¬((p.stream.take (min len prm.serial_rxbuf_size)).length =
          min len prm.serial_rxbuf_size) := by
        rw [hdel]; omega
      have hstep : (rx_chunk_go prm (fuel + 1) p len).2.1 =
          some (TruErr.rxFail (min len prm.serial_rxbuf_size)
            (p.stream.take (min len prm.serial_rxbuf_size)).length) := by
        simp only [rx_chunk_go, if_neg hl, read_port]
        rw [if_neg hne]
      exact ⟨_, _, hstep, by rw [hdel]; omega⟩
    · have hc1 : 1 ≤ min len prm.serial_rxbuf_size := by omega
      have hdel : (p.stream.take (min len prm.serial_rxbuf_size)).length =
          min len prm.serial_rxbuf_size := by
        rw [List.length_take]; omega
      have hstep : (rx_chunk_go prm (fuel + 1) p len).2.1 =
          (rx_chunk_go prm fuel (dropStream p (min len prm.serial_rxbuf_size))
            (len - min len prm.serial_rxbuf_size)).2.1 := by
        simp only [rx_chunk_go, if_neg hl, read_port]
        rw [if_pos hdel]
      rw [hstep]
      exact ih (len - min len prm.serial_rxbuf_size)
        (dropStream p (min len prm.serial_rxbuf_size))
        (by omega)
        (by simp only [dropStream, List.length_drop]; omega)

theorem rx_chunk_ok (prm : cl_my_params) (hB : 1 ≤ prm.serial_rxbuf_size)
    (p : serial_com) (len : Nat) (hs : len ≤ p.stream.length) :
    rx_chunk prm p len = (dropStream p len, none, p.stream.take len) :=
  rx_chunk_go_ok prm hB len len p (le_refl _) hs

/-! ## `verify_echo` behaviour -/

theorem verify_echo_self : ∀ l : List Nat, verify_echo l l = none := by
  intro l
  induction l with
  | nil => rfl
  | cons t ts ih => simp [verify_echo, ih]

theorem verify_echo_set : ∀ (l : List Nat) (j x : Nat), j < l.length →
    x ≠ l.getD j 0 →
    verify_echo l (l.set j x) = some (TruErr.echoMismatch (l.getD j 0) x) := by
  intro l
  induction l with
  | nil =>
    intro j x hj _
    simp at hj
  | cons t ts ih =>
    intro j x hj hx
    cases j with
    | zero =>
      simp only [List.getD_cons_zero] at hx ⊢
      simp [List.set, verify_echo, Ne.symm hx]
    | succ k =>
      simp only [List.getD_cons_succ] at hx ⊢
      show (if t ≠ t then some (TruErr.echoMismatch t t)
        else verify_echo ts (ts.set k x)) = _
      rw [if_neg (by simp)]
      exact ih k x (by simpa using hj) hx

/-! ## Concrete fixtures used by witnesses and counterexamples -/

/-- Session parameters with 64-byte transfer buffers. -/
def prm64 : cl_my_params := cl_my_params.mk 64 64 2 16 0 0 false

/-- Session parameters with 2-byte transfer buffers. -/
def prm2 : cl_my_params := cl_my_params.mk 2 2 2 16 0 0 false

/-- Claim C3: for every requested length N ≥ 1 and configured transmit chunk
size B ≥ 1, `tx_chunk` performs exactly `ceil(N/B)` transport writes — the
chunks of `chunkList`, whose sizes are each `min(remaining, B)` (hence ≤ B)
and concatenate back to the data, so the sizes sum to N — and it raises the
transfer-failure error if and only if some transport write returns a
transferred count different from the requested chunk size (the error is
always a `txFail` whose transferred count differs from its request). -/
theorem tx_chunk_spec (prm : cl_my_params) (p : serial_com) (data : List Nat)
    (hN : 1 ≤ data.length) (hB : 1 ≤ prm.serial_txbuf_size) :
    ((chunkList prm.serial_txbuf_size data).length =
        (data.length + prm.serial_txbuf_size - 1) / prm.serial_txbuf_size) ∧
    ((chunkList prm.serial_txbuf_size data).flatten = data) ∧
    (((chunkList prm.serial_txbuf_size data).map List.length).sum = data.length) ∧
    (∀ j, j < (chunkList prm.serial_txbuf_size data).length →
        ((chunkList prm.serial_txbuf_size data).map List.length).getD j 0 =
          min (data.length - prm.serial_txbuf_size * j) prm.serial_txbuf_size) ∧
    ((tx_chunk prm p data).2 = none ↔
        ∀ j, j < (chunkList prm.serial_txbuf_size data).length →
          p.wr (p.widx + j)
              (((chunkList prm.serial_txbuf_size data).map List.length).getD j 0) =
            ((chunkList prm.serial_txbuf_size data).map List.length).getD j 0) ∧
    ((tx_chunk prm p data).2 = none →
        (tx_chunk prm p data).1.txTrace =
          p.txTrace ++ chunkList prm.serial_txbuf_size data) ∧
    (∀ e, (tx_chunk prm p data).2 = some e →
        ∃ req xf, e = TruErr.txFail req xf ∧ xf ≠ req) := by
  obtain ⟨hiff, hstate, herr⟩ :=
    tx_chunk_go_spec prm hB data.length data p (le_refl _)
  refine ⟨chunkList_length prm.serial_txbuf_size hB data.length data (le_refl _),
    chunkList_flatten prm.serial_txbuf_size hB data, ?_,
    chunkList_sizes prm.serial_txbuf_size hB data.length data (le_refl _),
    hiff, ?_, herr⟩
  · rw [← List.length_flatten, chunkList_flatten prm.serial_txbuf_size hB data]
  · intro hnone
    show (tx_chunk_go prm data.length p data).1.txTrace = _
    rw [hstate hnone]

/-- Witness for `tx_chunk_spec` at N = 5, B = 2 (chunks `[2,2,1]`). -/
theorem tx_chunk_spec_witness :
    (1 ≤ ([1, 2, 3, 4, 5] : List Nat).length) ∧
    (1 ≤ prm2.serial_txbuf_size) ∧
    ((chunkList prm2.serial_txbuf_size [1, 2, 3, 4, 5]).length =
      (([1, 2, 3, 4, 5] : List Nat).length + prm2.serial_txbuf_size - 1) /
        prm2.serial_txbuf_size) ∧
    ((tx_chunk prm2 (mkPort []) [1, 2, 3, 4, 5]).2 = none →
      (tx_chunk prm2 (mkPort []) [1, 2, 3, 4, 5]).1.txTrace =
        (mkPort []).txTrace ++ chunkList prm2.serial_txbuf_size [1, 2, 3, 4, 5]) :=
  ⟨by decide, by decide,
    (tx_chunk_spec prm2 (mkPort []) [1, 2, 3, 4, 5] (by decide) (by decide)).1,
    (tx_chunk_spec prm2 (mkPort []) [1, 2, 3, 4, 5] (by decide)
      (by decide)).2.2.2.2.2.1⟩

/-! ## The one-byte command handshake -/

theorem txrx_chunk_single (prm : cl_my_params) (hB : 1 ≤ prm.serial_txbuf_size)
    (hBr : 1 ≤ prm.serial_rxbuf_size) (p : serial_com) (c e : Nat)
    (s : List Nat) (hwr : ∀ i l, p.wr i l = l) (hs : p.stream = e :: s)
    (ec : talker_echo_e) :
    txrx_chunk prm p [c] ec =
      (dropStream (pushTx p [c]) 1,
        (match ec with
         | talker_echo_e.TALKER_ECHO_VERIFY => verify_echo [c] [e]
         | talker_echo_e.TALKER_ECHO_VERIFY_COM => verify_echo_com [c] [e]
         | talker_echo_e.TALKER_ECHO_IGNORE => none),
        [e]) := by
  have hchunk : ([c] : List Nat).take prm.serial_txbuf_size = [c] :=
    List.take_of_length_le (by simp; omega)
  have hdropc : ([c] : List Nat).drop prm.serial_txbuf_size = [] :=
    List.drop_eq_nil_of_le (by simp; omega)
  have hrx : rx_chunk prm (pushTx p [c]) 1 =
      (dropStream (pushTx p [c]) 1, none, [e]) := by
    have h1 : (1 : Nat) ≤ (pushTx p [c]).stream.length := by
      simp [pushTx, hs]
    rw [rx_chunk_ok prm hBr (pushTx p [c]) 1 h1]
    simp [pushTx, hs]
  show txrx_chunk_go prm ec 1 p [c] = _
  simp only [txrx_chunk_go, write_port, hchunk, hdropc,
    if_neg (List.cons_ne_nil c []), hwr, if_pos rfl, if_true,
    List.length_singleton]
  rw [hrx]
  cases ec with
  | TALKER_ECHO_IGNORE => simp
  | TALKER_ECHO_VERIFY_COM =>
    cases hv : verify_echo_com [c] [e] <;> simp [hv]
  | TALKER_ECHO_VERIFY =>
    cases hv : verify_echo [c] [e] <;> simp [hv]

theorem tru11_cmd_params_eval (prm : cl_my_params)
    (hB : 1 ≤ prm.serial_txbuf_size) (hBr : 1 ≤ prm.serial_rxbuf_size)
    (p : serial_com) (cmd count addr e : Nat) (s : List Nat)
    (hwr : ∀ i l, p.wr i l = l) (hs : p.stream = e :: s) :
    (e = cmd →
      (tru11_cmd_params prm p cmd count addr).2 = none ∧
      (tru11_cmd_params prm p cmd count addr).1.txTrace =
        p.txTrace ++ [[cmd]] ++
          chunkList prm.serial_txbuf_size
            [count % 256, addr / 256 % 256, addr % 256]) ∧
    (e ≠ cmd →
      tru11_cmd_params prm p cmd count addr =
        (dropStream (pushTx p [cmd]) 1, some (TruErr.echoMismatch cmd e))) := by
  have h1 : tru11_txrx_chunk prm p [cmd] true =
      (dropStream (pushTx p [cmd]) 1, verify_echo [cmd] [e], [e]) := by
    have h := txrx_chunk_single prm hB hBr p cmd e s hwr hs
      talker_echo_e.TALKER_ECHO_VERIFY
    simpa [tru11_txrx_chunk] using h
  constructor
  · intro he
    have hv : verify_echo [cmd] [e] = none := by
      rw [he]; exact verify_echo_self [cmd]
    rw [hv] at h1
    have h2 : tru11_cmd_params prm p cmd count addr =
        tx_chunk prm (dropStream (pushTx p [cmd]) 1)
          [count % 256, addr / 256 % 256, addr % 256] := by
      simp only [tru11_cmd_params, h1]
    rw [h2]
    obtain ⟨hiff, hstate, _⟩ := tx_chunk_go_spec prm hB 3
      [count % 256, addr / 256 % 256, addr % 256]
      (dropStream (pushTx p [cmd]) 1) (by simp)
    have hall : ∀ j, j <
        (chunkList prm.serial_txbuf_size
          [count % 256, addr / 256 % 256, addr % 256]).length →
        (dropStream (pushTx p [cmd]) 1).wr
            ((dropStream (pushTx p [cmd]) 1).widx + j)
            (((chunkList prm.serial_txbuf_size
              [count % 256, addr / 256 % 256, addr % 256]).map List.length).getD j 0) =
          ((chunkList prm.serial_txbuf_size
            [count % 256, addr / 256 % 256, addr % 256]).map List.length).getD j 0 := by
      intro j _
      exact hwr _ _
    have hnone := hiff.mpr hall
    refine ⟨hnone, ?_⟩
    have h3 := hstate hnone
    show (tx_chunk_go prm 3 (dropStream (pushTx p [cmd]) 1)
      [count % 256, addr / 256 % 256, addr % 256]).1.txTrace = _
    rw [h3]
    simp [dropStream, pushTx]
  · intro hne
    have hv : verify_echo [cmd] [e] = some (TruErr.echoMismatch cmd e) := by
      simp [verify_echo, Ne.symm hne]
    rw [hv] at h1
    simp only [tru11_cmd_params, h1]

theorem tbug11_cmd_params_eval (prm : cl_my_params)
    (hB : 1 ≤ prm.serial_txbuf_size) (hBr : 1 ≤ prm.serial_rxbuf_size)
    (p : serial_com) (cmd count addr e : Nat) (s : List Nat)
    (hwr : ∀ i l, p.wr i l = l) (hs : p.stream = e :: s) :
    (cmd = 255 - e % 256 →
      (tbug11_cmd_params prm p cmd count addr).2 = none ∧
      (tbug11_cmd_params prm p cmd count addr).1.txTrace =
        p.txTrace ++ [[cmd]] ++
          chunkList prm.serial_txbuf_size
            [count % 256, addr / 256 % 256, addr % 256]) ∧
    (cmd ≠ 255 - e % 256 →
      tbug11_cmd_params prm p cmd count addr =
        (dropStream (pushTx p [cmd]) 1,
          some (TruErr.echoMismatch cmd (255 - e % 256)))) := by
  have h1 : txrx_chunk prm p [cmd] talker_echo_e.TALKER_ECHO_VERIFY_COM =
      (dropStream (pushTx p [cmd]) 1, verify_echo_com [cmd] [e], [e]) :=
    txrx_chunk_single prm hB hBr p cmd e s hwr hs
      talker_echo_e.TALKER_ECHO_VERIFY_COM
  constructor
  · intro he
    have hv : verify_echo_com [cmd] [e] = none := by
      simp [verify_echo_com, he]
    rw [hv] at h1
    have h2 : tbug11_cmd_params prm p cmd count addr =
        tx_chunk prm (dropStream (pushTx p [cmd]) 1)
          [count % 256, addr / 256 % 256, addr % 256] := by
      simp only [tbug11_cmd_params, h1]
    rw [h2]
    obtain ⟨hiff, hstate, _⟩ := tx_chunk_go_spec prm hB 3
      [count % 256, addr / 256 % 256, addr % 256]
      (dropStream (pushTx p [cmd]) 1) (by simp)
    have hall : ∀ j, j <
        (chunkList prm.serial_txbuf_size
          [count % 256, addr / 256 % 256, addr % 256]).length →
        (dropStream (pushTx p [cmd]) 1).wr
            ((dropStream (pushTx p [cmd]) 1).widx + j)
            (((chunkList prm.serial_txbuf_size
              [count % 256, addr / 256 % 256, addr % 256]).map List.length).getD j 0) =
          ((chunkList prm.serial_txbuf_size
            [count % 256, addr / 256 % 256, addr % 256]).map List.length).getD j 0 := by
      intro j _
      exact hwr _ _
    have hnone := hiff.mpr hall
    refine ⟨hnone, ?_⟩
    have h3 := hstate hnone
    show (tx_chunk_go prm 3 (dropStream (pushTx p [cmd]) 1)
      [count % 256, addr / 256 % 256, addr % 256]).1.txTrace = _
    rw [h3]
    simp [dropStream, pushTx]
  · intro hne
    have hv : verify_echo_com [cmd] [e] =
        some (TruErr.echoMismatch cmd (255 - e % 256)) := by
      simp [verify_echo_com, hne]
    rw [hv] at h1
    simp only [tbug11_cmd_params, h1]

/-- Claim C1 counterexample: in Tru11's `readmem` command phase (read
command `0x01` framed by `tru11_cmd_params`), an echo equal to the bitwise
complement `0xfe` of the command byte — which the claim requires to be
accepted — is rejected with an echo-mismatch error, while an echo equal to
the command byte itself is accepted.  Tru11 verifies the command echo with
the direct-equality `verify_echo`, not under the bitwise-complement policy. -/
theorem tru11_command_echo_policy_counterexample :
    (tru11_cmd_params prm64 (mkPort [0xfe]) TALKER_READ_CMD 16 0).2 =
      some (TruErr.echoMismatch 1 0xfe) ∧
    (0xfe : Nat) = 255 - TALKER_READ_CMD ∧
    (tru11_cmd_params prm64 (mkPort [TALKER_READ_CMD]) TALKER_READ_CMD 16 0).2 =
      none := by
  refine ⟨?_, by decide, ?_⟩ <;> decide

/-- Claim C1 (amended): for every memory-access operation the protocol
engine transmits the single command byte and verifies its one-byte echo
before the length and address parameter bytes are sent — in TBug11 under the
bitwise-complement policy (the received byte must equal the bitwise
complement of the command byte), but in Tru11 under the direct-equality
policy (the received byte must equal the command byte itself).  In both
variants, when the echo check fails, the write trace ends at the command
byte: the parameter bytes are never transmitted. -/
theorem command_echo_policy_amended (prm : cl_my_params) (p : serial_com)
    (cmd count addr e : Nat) (s : List Nat)
    (hB : 1 ≤ prm.serial_txbuf_size) (hBr : 1 ≤ prm.serial_rxbuf_size)
    (hwr : ∀ i l, p.wr i l = l) (hs : p.stream = e :: s) :
    ((tru11_cmd_params prm p cmd count addr).2 = none ↔ e = cmd) ∧
    (e = cmd →
      (tru11_cmd_params prm p cmd count addr).1.txTrace =
        p.txTrace ++ [[cmd]] ++
          chunkList prm.serial_txbuf_size
            [count % 256, addr / 256 % 256, addr % 256]) ∧
    (e ≠ cmd →
      (tru11_cmd_params prm p cmd count addr).1.txTrace =
        p.txTrace ++ [[cmd]] ∧
      (tru11_cmd_params prm p cmd count addr).2 =
        some (TruErr.echoMismatch cmd e)) ∧
    ((tbug11_cmd_params prm p cmd count addr).2 = none ↔ cmd = 255 - e % 256) ∧
    (cmd < 256 → e < 256 →
      ((tbug11_cmd_params prm p cmd count addr).2 = none ↔ e = 255 - cmd)) ∧
    (cmd = 255 - e % 256 →
      (tbug11_cmd_params prm p cmd count addr).1.txTrace =
        p.txTrace ++ [[cmd]] ++
          chunkList prm.serial_txbuf_size
            [count % 256, addr / 256 % 256, addr % 256]) ∧
    (cmd ≠ 255 - e % 256 →
      (tbug11_cmd_params prm p cmd count addr).1.txTrace =
        p.txTrace ++ [[cmd]] ∧
      (tbug11_cmd_params prm p cmd count addr).2 =
        some (TruErr.echoMismatch cmd (255 - e % 256))) := by
  obtain ⟨htr_ok, htr_fail⟩ :=
    tru11_cmd_params_eval prm hB hBr p cmd count addr e s hwr hs
  obtain ⟨htb_ok, htb_fail⟩ :=
    tbug11_cmd_params_eval prm hB hBr p cmd count addr e s hwr hs
  refine ⟨?_, ?_, ?_, ?_, ?_, ?_, ?_⟩
  · constructor
    · intro hnone
      by_contra hne
      rw [htr_fail hne] at hnone
      simp at hnone
    · intro he; exact (htr_ok he).1
  · intro he; exact (htr_ok he).2
  · intro hne
    rw [htr_fail hne]
    exact ⟨by simp [dropStream, pushTx], rfl⟩
  · constructor
    · intro hnone
      by_contra hne
      rw [htb_fail hne] at hnone
      simp at hnone
    · intro he; exact (htb_ok he).1
  · intro hc he
    have hmod : e % 256 = e := Nat.mod_eq_of_lt he
    constructor
    · intro hnone
      by_contra hne
      have hne2 : cmd ≠ 255 - e % 256 := by rw [hmod]; omega
      rw [htb_fail hne2] at hnone
      simp at hnone
    · intro hec
      exact (htb_ok (by rw [hmod]; omega)).1
  · intro he; exact (htb_ok he).2
  · intro hne
    rw [htb_fail hne]
    exact ⟨by simp [dropStream, pushTx], rfl⟩

/-- Witness for `command_echo_policy_amended`: a concrete port whose device
echoes `0xfe`, with the read command `0x01`. -/
theorem command_echo_policy_amended_witness :
    (1 ≤ prm64.serial_txbuf_size) ∧ (1 ≤ prm64.serial_rxbuf_size) ∧
    ((mkPort [0xfe]).stream = 0xfe :: []) ∧
    ((tru11_cmd_params prm64 (mkPort [0xfe]) TALKER_READ_CMD 16 0).2 = none ↔
      (0xfe : Nat) = TALKER_READ_CMD) ∧
    ((tbug11_cmd_params prm64 (mkPort [0xfe]) TALKER_READ_CMD 16 0).2 = none ↔
      TALKER_READ_CMD = 255 - 0xfe % 256) :=
  ⟨by decide, by decide, rfl,
    (command_echo_policy_amended prm64 (mkPort [0xfe]) TALKER_READ_CMD 16 0
      0xfe [] (by decide) (by decide) (fun _ _ => rfl) rfl).1,
    (command_echo_policy_amended prm64 (mkPort [0xfe]) TALKER_READ_CMD 16 0
      0xfe [] (by decide) (by decide) (fun _ _ => rfl) rfl).2.2.2.1⟩

/-! ## `txrx_chunk_control_program` behaviour -/

theorem ctrl_go_ok (prm : cl_my_params) (hB : 1 ≤ prm.serial_txbuf_size)
    (hBr : 1 ≤ prm.serial_rxbuf_size) :
    ∀ fuel (data : List Nat) (p : serial_com) (rest : List Nat),
      data.length ≤ fuel → data ≠ [] → (∀ i l, p.wr i l = l) →
      p.stream = data.dropLast ++ rest →
      (txrx_chunk_control_program_go prm fuel p data).2 = none ∧
      (txrx_chunk_control_program_go prm fuel p data).1.txTrace =
        p.txTrace ++ chunkList prm.serial_txbuf_size data := by
  intro fuel
  induction fuel with
  | zero =>
    intro data p rest h hd _ _
    cases data with
    | nil => exact absurd rfl hd
    | cons a l => simp at h
  | succ fuel ih =>
    intro data p rest h hd hwr hs
    have hl : 1 ≤ data.length := by
      cases data with
      | nil => exact absurd rfl hd
      | cons a l => simp
    by_cases hfin : data.length ≤ prm.serial_txbuf_size
    · -- final chunk: the whole of `data`
      have hchunk : data.take prm.serial_txbuf_size = data :=
        List.take_of_length_le hfin
      have hdrop : data.drop prm.serial_txbuf_size = [] :=
        List.drop_eq_nil_of_le hfin
      have hsingle := chunkList_single prm.serial_txbuf_size hB data hd hfin
      by_cases hn1 : data.length = 1
      · have hstep : txrx_chunk_control_program_go prm (fuel + 1) p data =
            ((read_port (pushTx p data) 1).1, none) := by
          simp only [txrx_chunk_control_program_go, write_port, hchunk, hdrop,
            if_neg hd, hwr, if_pos rfl, if_true, hn1]
        rw [hstep, hsingle]
        exact ⟨rfl, by simp [read_port, dropStream, pushTx]⟩
      · have hrx : rx_chunk prm (pushTx p data) (data.length - 1) =
            (dropStream (pushTx p data) (data.length - 1), none, data.dropLast) := by
          have h1 : data.length - 1 ≤ (pushTx p data).stream.length := by
            simp only [pushTx, hs, List.length_append, List.length_dropLast]
            omega
          rw [rx_chunk_ok prm hBr (pushTx p data) (data.length - 1) h1]
          have h2 : (pushTx p data).stream.take (data.length - 1) =
              data.dropLast := by
            simp only [pushTx, hs]
            rw [← List.length_dropLast data]
            exact List.take_left data.dropLast rest
          rw [h2]
        have hverify : verify_echo (data.take (data.length - 1)) data.dropLast =
            none := by
          rw [← List.dropLast_eq_take]
          exact verify_echo_self data.dropLast
        have hstep : txrx_chunk_control_program_go prm (fuel + 1) p data =
            ((read_port (dropStream (pushTx p data) (data.length - 1)) 1).1,
              none) := by
          simp only [txrx_chunk_control_program_go, write_port, hchunk, hdrop,
            if_neg hd, hwr, if_pos rfl, if_true, if_neg hn1, hrx, hverify]
        rw [hstep, hsingle]
        exact ⟨rfl, by simp [read_port, dropStream, pushTx]⟩
    · -- not the final chunk
      have hBlt : prm.serial_txbuf_size < data.length := by omega
      have hchlen : (data.take prm.serial_txbuf_size).length =
          prm.serial_txbuf_size := by
        rw [List.length_take]; omega
      have hdl : data.dropLast.length = data.length - 1 := List.length_dropLast data
      have hrx : rx_chunk prm (pushTx p (data.take prm.serial_txbuf_size))
            (data.take prm.serial_txbuf_size).length =
          (dropStream (pushTx p (data.take prm.serial_txbuf_size))
              prm.serial_txbuf_size, none, data.take prm.serial_txbuf_size) := by
        rw [hchlen]
        have h1 : prm.serial_txbuf_size ≤
            (pushTx p (data.take prm.serial_txbuf_size)).stream.length := by
          simp only [pushTx, hs, List.length_append, hdl]
          omega
        rw [rx_chunk_ok prm hBr _ _ h1]
        have h2 : (pushTx p (data.take prm.serial_txbuf_size)).stream.take
            prm.serial_txbuf_size = data.take prm.serial_txbuf_size := by
          simp only [pushTx, hs]
          rw [List.take_append_of_le_length (by omega),
            List.dropLast_eq_take, List.take_take]
          congr 1
          omega
        rw [h2]
      have hverify : verify_echo (data.take prm.serial_txbuf_size)
          (data.take prm.serial_txbuf_size) = none :=
        verify_echo_self _
      have hrest : ¬(data.drop prm.serial_txbuf_size = []) := by
        intro hcon
        have := List.length_drop prm.serial_txbuf_size data
        rw [hcon] at this
        simp at this
        omega
      have hstep : txrx_chunk_control_program_go prm (fuel + 1) p data =
          txrx_chunk_control_program_go prm fuel
            (dropStream (pushTx p (data.take prm.serial_txbuf_size))
              prm.serial_txbuf_size)
            (data.drop prm.serial_txbuf_size) := by
        simp only [txrx_chunk_control_program_go, write_port, if_neg hd,
          if_neg hrest, hwr, if_pos rfl, if_true, hrx, hverify]
      have hstream2 : (dropStream (pushTx p (data.take prm.serial_txbuf_size))
          prm.serial_txbuf_size).stream =
          (data.drop prm.serial_txbuf_size).dropLast ++ rest := by
        simp only [dropStream, pushTx, hs]
        rw [List.drop_append_eq_append_drop, dropLast_drop_comm,
          Nat.sub_eq_zero_of_le (by omega : prm.serial_txbuf_size ≤ data.dropLast.length),
          List.drop_zero]
      obtain ⟨ih1, ih2⟩ := ih (data.drop prm.serial_txbuf_size)
        (dropStream (pushTx p (data.take prm.serial_txbuf_size))
          prm.serial_txbuf_size) rest
        (by rw [List.length_drop]; omega)
        (by intro hcon; exact hrest hcon)
        (by intro i l; exact hwr i l)
        hstream2
      rw [hstep]
      refine ⟨ih1, ?_⟩
      rw [ih2, chunkList_cons prm.serial_txbuf_size hB data hd]
      simp only [dropStream, pushTx]
      rw [List.append_assoc, List.singleton_append]

theorem ctrl_go_mismatch (prm : cl_my_params) (hB : 1 ≤ prm.serial_txbuf_size)
    (hBr : 1 ≤ prm.serial_rxbuf_size) :
    ∀ fuel (data : List Nat) (p : serial_com) (j x : Nat) (rest : List Nat),
      data.length ≤ fuel → j + 1 < data.length → x ≠ data.getD j 0 →
      (∀ i l, p.wr i l = l) →
      p.stream = data.dropLast.set j x ++ rest →
      (txrx_chunk_control_program_go prm fuel p data).2 =
        some (TruErr.echoMismatch (data.getD j 0) x) := by
  intro fuel
  induction fuel with
  | zero =>
    intro data p j x rest h hj _ _ _
    omega
  | succ fuel ih =>
    intro data p j x rest h hj hx hwr hs
    have hn2 : 2 ≤ data.length := by omega
    have hd : data ≠ [] := by
      intro hcon; rw [hcon] at hn2; simp at hn2
    have hdl : data.dropLast.length = data.length - 1 := List.length_dropLast data
    have hgd : data.dropLast.getD j 0 = data.getD j 0 := by
      rw [List.dropLast_eq_take]
      exact getD_take_of_lt data j (data.length - 1) (by omega)
    by_cases hfin : data.length ≤ prm.serial_txbuf_size
    · have hchunk : data.take prm.serial_txbuf_size = data :=
        List.take_of_length_le hfin
      have hdrop : data.drop prm.serial_txbuf_size = [] :=
        List.drop_eq_nil_of_le hfin
      have hn1 : ¬(data.length = 1) := by omega
      have hrx : rx_chunk prm (pushTx p data) (data.length - 1) =
          (dropStream (pushTx p data) (data.length - 1), none,
            data.dropLast.set j x) := by
        have h1 : data.length - 1 ≤ (pushTx p data).stream.length := by
          simp only [pushTx, hs, List.length_append, List.length_set, hdl]
          omega
        rw [rx_chunk_ok prm hBr (pushTx p data) (data.length - 1) h1]
        have h2 : (pushTx p data).stream.take (data.length - 1) =
            data.dropLast.set j x := by
          simp only [pushTx, hs]
          rw [show data.length - 1 = (data.dropLast.set j x).length by
            rw [List.length_set, hdl]]
          exact List.take_left _ rest
        rw [h2]
      have hverify : verify_echo (data.take (data.length - 1))
          (data.dropLast.set j x) =
          some (TruErr.echoMismatch (data.getD j 0) x) := by
        rw [← List.dropLast_eq_take, ← hgd]
        exact verify_echo_set data.dropLast j x (by omega) (by rw [hgd]; exact hx)
      simp only [txrx_chunk_control_program_go, write_port, hchunk, hdrop,
        if_neg hd, hwr, if_pos rfl, if_true, if_neg hn1, hrx, hverify]
    · have hBlt : prm.serial_txbuf_size < data.length := by omega
      have hchlen : (data.take prm.serial_txbuf_size).length =
          prm.serial_txbuf_size := by
        rw [List.length_take]; omega
      have hrest : ¬(data.drop prm.serial_txbuf_size = []) := by
        intro hcon
        have := List.length_drop prm.serial_txbuf_size data
        rw [hcon] at this
        simp at this
        omega
      by_cases hjB : j < prm.serial_txbuf_size
      · -- the corrupted byte is inside the current (non-final) chunk
        have hrx : rx_chunk prm (pushTx p (data.take prm.serial_txbuf_size))
              (data.take prm.serial_txbuf_size).length =
            (dropStream (pushTx p (data.take prm.serial_txbuf_size))
                prm.serial_txbuf_size, none,
              (data.take prm.serial_txbuf_size).set j x) := by
          rw [hchlen]
          have h1 : prm.serial_txbuf_size ≤
              (pushTx p (data.take prm.serial_txbuf_size)).stream.length := by
            simp only [pushTx, hs, List.length_append, List.length_set, hdl]
            omega
          rw [rx_chunk_ok prm hBr _ _ h1]
          have h2 : (pushTx p (data.take prm.serial_txbuf_size)).stream.take
              prm.serial_txbuf_size = (data.take prm.serial_txbuf_size).set j x := by
            simp only [pushTx, hs]
            rw [List.take_append_of_le_length
                (by rw [List.length_set, hdl]; omega),
              List.set_take, List.dropLast_eq_take, List.take_take]
            have hmin : min prm.serial_txbuf_size (data.length - 1) =
                prm.serial_txbuf_size := by omega
            rw [hmin]
          rw [h2]
        have hverify : verify_echo (data.take prm.serial_txbuf_size)
            ((data.take prm.serial_txbuf_size).set j x) =
            some (TruErr.echoMismatch (data.getD j 0) x) := by
          rw [← getD_take_of_lt data j prm.serial_txbuf_size hjB]
          exact verify_echo_set _ j x (by rw [hchlen]; omega)
            (by rw [getD_take_of_lt data j prm.serial_txbuf_size hjB]; exact hx)
        simp only [txrx_chunk_control_program_go, write_port, if_neg hd,
          if_neg hrest, hwr, if_pos rfl, if_true, hrx, hverify]
      · -- the corrupted byte lies in a later chunk
        have hrx : rx_chunk prm (pushTx p (data.take prm.serial_txbuf_size))
              (data.take prm.serial_txbuf_size).length =
            (dropStream (pushTx p (data.take prm.serial_txbuf_size))
                prm.serial_txbuf_size, none,
              data.take prm.serial_txbuf_size) := by
          rw [hchlen]
          have h1 : prm.serial_txbuf_size ≤
              (pushTx p (data.take prm.serial_txbuf_size)).stream.length := by
            simp only [pushTx, hs, List.length_append, List.length_set, hdl]
            omega
          rw [rx_chunk_ok prm hBr _ _ h1]
          have h2 : (pushTx p (data.take prm.serial_txbuf_size)).stream.take
              prm.serial_txbuf_size = data.take prm.serial_txbuf_size := by
            simp only [pushTx, hs]
            rw [List.take_append_of_le_length
                (by rw [List.length_set, hdl]; omega),
              List.set_take,
              List.set_eq_of_length_le
                (by rw [List.length_take, List.length_dropLast]; omega),
              List.dropLast_eq_take, List.take_take]
            have hmin : min prm.serial_txbuf_size (data.length - 1) =
                prm.serial_txbuf_size := by omega
            rw [hmin]
          rw [h2]
        have hverify : verify_echo (data.take prm.serial_txbuf_size)
            (data.take prm.serial_txbuf_size) = none := verify_echo_self _
        have hstep : txrx_chunk_control_program_go prm (fuel + 1) p data =
            txrx_chunk_control_program_go prm fuel
              (dropStream (pushTx p (data.take prm.serial_txbuf_size))
                prm.serial_txbuf_size)
              (data.drop prm.serial_txbuf_size) := by
          simp only [txrx_chunk_control_program_go, write_port, if_neg hd,
            if_neg hrest, hwr, if_pos rfl, if_true, hrx, hverify]
        have hstream2 : (dropStream (pushTx p (data.take prm.serial_txbuf_size))
            prm.serial_txbuf_size).stream =
            (data.drop prm.serial_txbuf_size).dropLast.set
              (j - prm.serial_txbuf_size) x ++ rest := by
          simp only [dropStream, pushTx, hs]
          rw [List.drop_append_eq_append_drop,
            Nat.sub_eq_zero_of_le
              (by rw [List.length_set, hdl]; omega :
                prm.serial_txbuf_size ≤ (data.dropLast.set j x).length),
            List.drop_zero,
            drop_set_of_le _ _ _ _ (by omega), dropLast_drop_comm]
        have hgdrop : (data.drop prm.serial_txbuf_size).getD
            (j - prm.serial_txbuf_size) 0 = data.getD j 0 := by
          rw [getD_drop]
          congr 1
          omega
        rw [hstep, ← hgdrop]
        exact ih (data.drop prm.serial_txbuf_size) _
          (j - prm.serial_txbuf_size) x rest
          (by rw [List.length_drop]; omega)
          (by rw [List.length_drop]; omega)
          (by rw [hgdrop]; exact hx)
          (by intro i l; exact hwr i l)
          hstream2

theorem ctrl_go_missing (prm : cl_my_params) (hB : 1 ≤ prm.serial_txbuf_size)
    (hBr : 1 ≤ prm.serial_rxbuf_size) :
    ∀ fuel (data : List Nat) (p : serial_com) (m : Nat),
      data.length ≤ fuel → m + 1 < data.length → (∀ i l, p.wr i l = l) →
      p.stream = data.take m →
      ∃ a b, (txrx_chunk_control_program_go prm fuel p data).2 =
        some (TruErr.rxFail a b) ∧ b < a := by
  intro fuel
  induction fuel with
  | zero =>
    intro data p m h hm _ _
    omega
  | succ fuel ih =>
    intro data p m h hm hwr hs
    have hn2 : 2 ≤ data.length := by omega
    have hd : data ≠ [] := by
      intro hcon; rw [hcon] at hn2; simp at hn2
    have hslen : p.stream.length = m := by
      rw [hs, List.length_take]; omega
    by_cases hfin : data.length ≤ prm.serial_txbuf_size
    · have hchunk : data.take prm.serial_txbuf_size = data :=
        List.take_of_length_le hfin
      have hdrop : data.drop prm.serial_txbuf_size = [] :=
        List.drop_eq_nil_of_le hfin
      have hn1 : ¬(data.length = 1) := by omega
      obtain ⟨a, b, hfail, hba⟩ := rx_chunk_go_short prm hBr (data.length - 1)
        (data.length - 1) (pushTx p data) (le_refl _)
        (by simp only [pushTx, hslen]; omega)
      refine ⟨a, b, ?_, hba⟩
      rcases hrx : rx_chunk prm (pushTx p data) (data.length - 1) with ⟨p1, e1, got⟩
      have he1 : e1 = some (TruErr.rxFail a b) := by
        have : rx_chunk_go prm (data.length - 1) (pushTx p data)
            (data.length - 1) = (p1, e1, got) := hrx
        rw [this] at hfail
        exact hfail
      simp only [txrx_chunk_control_program_go, write_port, hchunk, hdrop,
        if_neg hd, hwr, if_pos rfl, if_true, if_neg hn1, hrx, he1]
    · have hBlt : prm.serial_txbuf_size < data.length := by omega
      have hchlen : (data.take prm.serial_txbuf_size).length =
          prm.serial_txbuf_size := by
        rw [List.length_take]; omega
      have hrest : ¬(data.drop prm.serial_txbuf_size = []) := by
        intro hcon
        have := List.length_drop prm.serial_txbuf_size data
        rw [hcon] at this
        simp at this
        omega
      by_cases hmB : m < prm.serial_txbuf_size
      · -- the stream dries up inside the current chunk
        obtain ⟨a, b, hfail, hba⟩ := rx_chunk_go_short prm hBr
          prm.serial_txbuf_size prm.serial_txbuf_size
          (pushTx p (data.take prm.serial_txbuf_size)) (le_refl _)
          (by simp only [pushTx, hslen]; omega)
        refine ⟨a, b, ?_, hba⟩
        rcases hrx : rx_chunk prm (pushTx p (data.take prm.serial_txbuf_size))
          (data.take prm.serial_txbuf_size).length with ⟨p1, e1, got⟩
        have he1 : e1 = some (TruErr.rxFail a b) := by
          have heq : rx_chunk_go prm prm.serial_txbuf_size
              (pushTx p (data.take prm.serial_txbuf_size))
              prm.serial_txbuf_size = (p1, e1, got) := by
            rw [← hrx, hchlen]
            rfl
          rw [heq] at hfail
          exact hfail
        simp only [txrx_chunk_control_program_go, write_port, if_neg hd,
          if_neg hrest, hwr, if_pos rfl, if_true, hrx, he1]
      · -- the current chunk is fully echoed; recurse
        have hrx : rx_chunk prm (pushTx p (data.take prm.serial_txbuf_size))
              (data.take prm.serial_txbuf_size).length =
            (dropStream (pushTx p (data.take prm.serial_txbuf_size))
                prm.serial_txbuf_size, none,
              data.take prm.serial_txbuf_size) := by
          rw [hchlen]
          have h1 : prm.serial_txbuf_size ≤
              (pushTx p (data.take prm.serial_txbuf_size)).stream.length := by
            simp only [pushTx, hslen]; omega
          rw [rx_chunk_ok prm hBr _ _ h1]
          have h2 : (pushTx p (data.take prm.serial_txbuf_size)).stream.take
              prm.serial_txbuf_size = data.take prm.serial_txbuf_size := by
            simp only [pushTx, hs]
            rw [List.take_take]
            have hmin : min prm.serial_txbuf_size m = prm.serial_txbuf_size := by
              omega
            rw [hmin]
          rw [h2]
        have hverify : verify_echo (data.take prm.serial_txbuf_size)
            (data.take prm.serial_txbuf_size) = none := verify_echo_self _
        have hstep : txrx_chunk_control_program_go prm (fuel + 1) p data =
            txrx_chunk_control_program_go prm fuel
              (dropStream (pushTx p (data.take prm.serial_txbuf_size))
                prm.serial_txbuf_size)
              (data.drop prm.serial_txbuf_size) := by
          simp only [txrx_chunk_control_program_go, write_port, if_neg hd,
            if_neg hrest, hwr, if_pos rfl, if_true, hrx, hverify]
        have hstream2 : (dropStream (pushTx p (data.take prm.serial_txbuf_size))
            prm.serial_txbuf_size).stream =
            (data.drop prm.serial_txbuf_size).take (m - prm.serial_txbuf_size) := by
          simp only [dropStream, pushTx, hs]
          rw [List.drop_take]
        rw [hstep]
        exact ih (data.drop prm.serial_txbuf_size) _ (m - prm.serial_txbuf_size)
          (by rw [List.length_drop]; omega)
          (by rw [List.length_drop]; omega)
          (by intro i l; exact hwr i l)
          hstream2

/-- Claim C2 counterexample: a transport that never delivers the echo of
byte index 1 of the three-byte image `[1, 2, 3]` (the device sends only the
first echo, then nothing) makes the bootstrap transfer fail with the
receive-shortfall error `rxFail`, not with the echo-mismatch error the claim
requires for a missing byte before the last one. -/
theorem bootstrap_missing_byte_counterexample :
    (txrx_chunk_control_program prm64 (mkPort [1]) [1, 2, 3]).2 =
      some (TruErr.rxFail 2 1) ∧
    TruErr.rxFail 2 1 ≠ TruErr.echoMismatch 2 1 := by
  refine ⟨?_, by decide⟩
  decide

/-- Claim C2 (amended): during the bootstrap control-program download, a
read failure or echo mismatch on the very last transmitted image byte raises
no error — the transfer completes whenever the device correctly echoes every
byte but the last, whatever (if anything) it sends for the last byte, for
final chunks of length 1 and of length > 1 alike.  A mismatched echo of a
byte before the last one raises the echo-mismatch error; a byte before the
last one that is never delivered raises the receive-shortfall error
(`rxFail`), not the echo-mismatch error. -/
theorem bootstrap_last_byte_tolerance_amended (prm : cl_my_params)
    (data : List Nat) (p : serial_com)
    (hB : 1 ≤ prm.serial_txbuf_size) (hBr : 1 ≤ prm.serial_rxbuf_size)
    (hwr : ∀ i l, p.wr i l = l) :
    (∀ rest, data ≠ [] → p.stream = data.dropLast ++ rest →
      (txrx_chunk_control_program prm p data).2 = none) ∧
    (∀ j x rest, j + 1 < data.length → x ≠ data.getD j 0 →
      p.stream = data.dropLast.set j x ++ rest →
      (txrx_chunk_control_program prm p data).2 =
        some (TruErr.echoMismatch (data.getD j 0) x)) ∧
    (∀ m, m + 1 < data.length → p.stream = data.take m →
      ∃ a b, (txrx_chunk_control_program prm p data).2 =
        some (TruErr.rxFail a b) ∧ b < a) := by
  refine ⟨?_, ?_, ?_⟩
  · intro rest hd hs
    exact (ctrl_go_ok prm hB hBr data.length data p rest (le_refl _) hd hwr hs).1
  · intro j x rest hj hx hs
    exact ctrl_go_mismatch prm hB hBr data.length data p j x rest
      (le_refl _) hj hx hwr hs
  · intro m hm hs
    exact ctrl_go_missing prm hB hBr data.length data p m (le_refl _) hm hwr hs

/-- Witness for `bootstrap_last_byte_tolerance_amended`: the three-byte
image `[1, 2, 3]` with a 2-byte transfer buffer — a missing final echo is
tolerated, a corrupted echo of byte 1 raises `echoMismatch`, and a missing
echo of byte 1 raises `rxFail`. -/
theorem bootstrap_last_byte_tolerance_amended_witness :
    ((txrx_chunk_control_program prm2 (mkPort [1, 2]) [1, 2, 3]).2 = none) ∧
    ((txrx_chunk_control_program prm2 (mkPort [1, 9, 3]) [1, 2, 3]).2 =
      some (TruErr.echoMismatch 2 9)) ∧
    (∃ a b, (txrx_chunk_control_program prm2 (mkPort [1]) [1, 2, 3]).2 =
      some (TruErr.rxFail a b) ∧ b < a) :=
  ⟨(bootstrap_last_byte_tolerance_amended prm2 [1, 2, 3] (mkPort [1, 2])
      (by decide) (by decide) (fun _ _ => rfl)).1 [] (by decide) (by decide),
   (bootstrap_last_byte_tolerance_amended prm2 [1, 2, 3] (mkPort [1, 9, 3])
      (by decide) (by decide) (fun _ _ => rfl)).2.1 1 9 [3] (by decide)
      (by decide) (by decide),
   (bootstrap_last_byte_tolerance_amended prm2 [1, 2, 3] (mkPort [1])
      (by decide) (by decide) (fun _ _ => rfl)).2.2 1 (by decide) (by decide)⟩

/-! ## Reading the talker image file -/

theorem read_talker_go_eq (line : List Char) :
    ∀ r i (acc : List Nat), acc.length ≤ 256 →
      read_talker_go line r i acc =
        if 256 < acc.length + r then Except.error TruErr.talkerTooBig
        else Except.ok (acc ++
          (List.range r).map (fun t => hexByte line (8 + 2 * (i + t)))) := by
  intro r
  induction r with
  | zero =>
    intro i acc h
    rw [if_neg (by omega)]
    simp [read_talker_go]
  | succ r ih =>
    intro i acc h
    by_cases hfull : acc.length = 256
    · have hstep : read_talker_go line (r + 1) i acc =
          Except.error TruErr.talkerTooBig := by
        simp [read_talker_go, BOOTLOADER_MAX_BYTE_COUNT, hfull]
      rw [hstep, if_pos (by omega)]
    · have hstep : read_talker_go line (r + 1) i acc =
          read_talker_go line r (i + 1) (acc ++ [hexByte line (8 + 2 * i)]) := by
        simp [read_talker_go, BOOTLOADER_MAX_BYTE_COUNT, hfull]
      rw [hstep, ih (i + 1) _ (by simp; omega)]
      by_cases hov : 256 < acc.length + (r + 1)
      · rw [if_pos (show 256 < (acc ++ [hexByte line (8 + 2 * i)]).length + r by
            simp only [List.length_append, List.length_singleton]; omega),
          if_pos hov]
      · rw [if_neg (show ¬(256 < (acc ++ [hexByte line (8 + 2 * i)]).length + r) by
            simp only [List.length_append, List.length_singleton]; omega),
          if_neg hov]
        congr 1
        rw [List.append_assoc, List.singleton_append]
        congr 1
        rw [List.range_succ_eq_map, List.map_cons, List.map_map]
        congr 1
        apply List.map_congr_left
        intro t _
        show hexByte line (8 + 2 * (i + 1 + t)) = hexByte line (8 + 2 * (i + (t + 1)))
        congr 1
        omega

theorem read_talker_line_eq (acc : List Nat) (line : List Char)
    (h : acc.length ≤ 256) :
    read_talker_line acc line =
      if 256 < acc.length + (srec_line_data line).length then
        Except.error TruErr.talkerTooBig
      else Except.ok (acc ++ srec_line_data line) := by
  by_cases h1 : 8 < line.length ∧ line.take 2 = ['S', '1']
  · by_cases hcond : 0 < hexByte line 2 ∧
        (line.length - 4) / 2 ≤ hexByte line 2 ∧
        SREC_ADDR_CHECKSUM_COUNT < hexByte line 2
    · have hdata : srec_line_data line =
          (List.range (hexByte line 2 - SREC_ADDR_CHECKSUM_COUNT)).map
            (fun i => hexByte line (8 + 2 * i)) := by
        simp only [srec_line_data, if_pos h1, if_pos hcond]
      have hline : read_talker_line acc line =
          read_talker_go line (hexByte line 2 - SREC_ADDR_CHECKSUM_COUNT)
            0 acc := by
        simp only [read_talker_line, if_pos h1,
          if_pos (show 0 < hexByte line 2 ∧
            (line.length - 4) / 2 ≤ hexByte line 2 from ⟨hcond.1, hcond.2.1⟩),
          if_pos hcond.2.2]
      rw [hline, hdata, read_talker_go_eq line _ 0 acc h,
        List.length_map, List.length_range]
      by_cases hov : 256 <
          acc.length + (hexByte line 2 - SREC_ADDR_CHECKSUM_COUNT)
      · rw [if_pos hov, if_pos hov]
      · rw [if_neg hov, if_neg hov]
        congr 2
        apply List.map_congr_left
        intro t _
        show hexByte line (8 + 2 * (0 + t)) = hexByte line (8 + 2 * t)
        congr 1
        omega
    · have hdata : srec_line_data line = [] := by
        simp only [srec_line_data, if_pos h1, if_neg hcond]
      have hline : read_talker_line acc line = Except.ok acc := by
        simp only [read_talker_line, if_pos h1]
        by_cases h2 : 0 < hexByte line 2 ∧ (line.length - 4) / 2 ≤ hexByte line 2
        · rw [if_pos h2, if_neg (fun h3 => hcond ⟨h2.1, h2.2, h3⟩)]
        · rw [if_neg h2]
      rw [hline, hdata, List.length_nil, Nat.add_zero, if_neg (by omega),
        List.append_nil]
  · have hdata : srec_line_data line = [] := by
      simp only [srec_line_data, if_neg h1]
    have hline : read_talker_line acc line = Except.ok acc := by
      simp only [read_talker_line, if_neg h1]
    rw [hline, hdata, List.length_nil, Nat.add_zero, if_neg (by omega),
      List.append_nil]

theorem read_talker_bytes_eq :
    ∀ (lines : List (List Char)) (acc : List Nat), acc.length ≤ 256 →
      read_talker_bytes lines acc =
        if 256 < acc.length + (talker_data lines).length then
          Except.error TruErr.talkerTooBig
        else Except.ok (acc ++ talker_data lines) := by
  intro lines
  induction lines with
  | nil =>
    intro acc h
    rw [if_neg (by simp [talker_data]; omega)]
    simp [read_talker_bytes, talker_data]
  | cons l ls ih =>
    intro acc h
    have htd : talker_data (l :: ls) = srec_line_data l ++ talker_data ls := by
      simp [talker_data]
    show (match read_talker_line acc l with
      | Except.error e => Except.error e
      | Except.ok acc2 => read_talker_bytes ls acc2) = _
    rw [read_talker_line_eq acc l h]
    by_cases hov1 : 256 < acc.length + (srec_line_data l).length
    · rw [if_pos hov1,
        if_pos (by rw [htd]; simp only [List.length_append]; omega)]
    · rw [if_neg hov1]
      show read_talker_bytes ls (acc ++ srec_line_data l) = _
      rw [ih (acc ++ srec_line_data l)
        (by simp only [List.length_append]; omega)]
      rw [htd]
      by_cases hov2 : 256 <
          acc.length + ((srec_line_data l).length + (talker_data ls).length)
      · rw [if_pos (by simp only [List.length_append]; omega),
          if_pos (by simp only [List.length_append]; omega)]
      · rw [if_neg (by simp only [List.length_append]; omega),
          if_neg (by simp only [List.length_append]; omega),
          List.append_assoc]

/-- Claim C5: if the talker S-record file yields more than 256 data bytes
across its accepted S1 records, `send_control_program` fails with the
image-too-large error while the file is being read into the buffer: the
returned transport state is the input state unchanged, so no byte — not even
the sync byte — has been written to the serial transport. -/
theorem image_too_large_before_transmission (prm : cl_my_params)
    (p : serial_com) (lines : List (List Char))
    (hbig : 256 < (talker_data lines).length) :
    send_control_program prm p lines = (p, some TruErr.talkerTooBig) := by
  have hread : read_talker_bytes lines [] = Except.error TruErr.talkerTooBig := by
    rw [read_talker_bytes_eq lines [] (by simp), if_pos (by simpa using hbig)]
  simp only [send_control_program, hread]

/-- A talker S1 line carrying 130 data bytes (byte-count field `0x85`). -/
def talker_big_line : List Char :=
  ['S', '1', '8', '5', '1', '0', '0', '0'] ++ List.replicate 260 'A' ++
    ['F', 'F']

set_option maxRecDepth 100000 in
/-- Witness for `image_too_large_before_transmission`: two 130-byte lines
yield 260 > 256 data bytes and the download aborts with the port untouched. -/
theorem image_too_large_before_transmission_witness :
    (256 < (talker_data [talker_big_line, talker_big_line]).length) ∧
    send_control_program prm64 (mkPort [])
        [talker_big_line, talker_big_line] =
      (mkPort [], some TruErr.talkerTooBig) :=
  ⟨by decide,
    image_too_large_before_transmission prm64 (mkPort [])
      [talker_big_line, talker_big_line] (by decide)⟩

/-- Claim C6: for every talker image containing k ≤ 256 data bytes, the
bootstrap downloader writes to the transport exactly one leading `0xff`
synchronization byte followed by exactly 256 bytes — the k image data bytes
in file order, then `256 - k` padding bytes of `0x00`.  (The sync byte is
sent with `tx_chunk`, which performs no reads, so no echo is consumed for
it; the device stream here carries only the echoes of the 256 image bytes.) -/
theorem bootstrap_image_layout (prm : cl_my_params) (p : serial_com)
    (lines : List (List Char)) (rest : List Nat)
    (hB : 1 ≤ prm.serial_txbuf_size) (hBr : 1 ≤ prm.serial_rxbuf_size)
    (hk : (talker_data lines).length ≤ 256)
    (hwr : ∀ i l, p.wr i l = l)
    (hs : p.stream = (talker_data lines ++
      List.replicate (256 - (talker_data lines).length) 0).dropLast ++ rest)
    (htr : p.txTrace = []) :
    (send_control_program prm p lines).2 = none ∧
    (send_control_program prm p lines).1.txTrace.flatten =
      0xff :: (talker_data lines ++
        List.replicate (256 - (talker_data lines).length) 0) ∧
    (talker_data lines ++
      List.replicate (256 - (talker_data lines).length) 0).length = 256 := by
  have hlen : (talker_data lines ++
      List.replicate (256 - (talker_data lines).length) 0).length = 256 := by
    rw [List.length_append, List.length_replicate]
    omega
  have hread : read_talker_bytes lines [] = Except.ok (talker_data lines) := by
    rw [read_talker_bytes_eq lines [] (by simp), if_neg (by simp; omega)]
    simp
  obtain ⟨hiff, hstate, _⟩ := tx_chunk_go_spec prm hB 1 [0xff] p (by simp)
  have hsync2 : (tx_chunk prm p [0xff]).2 = none :=
    hiff.mpr (fun j _ => hwr _ _)
  have hsingle : chunkList prm.serial_txbuf_size [0xff] = [[0xff]] :=
    chunkList_single _ hB _ (by simp) (by simp; omega)
  have hsync1 : (tx_chunk prm p [0xff]).1 =
      serial_com.mk p.wr (p.widx + 1) (p.txTrace ++ [[0xff]]) p.stream := by
    have h := hstate hsync2
    rw [hsingle] at h
    simpa using h
  have hsend : send_control_program prm p lines =
      txrx_chunk_control_program prm (tx_chunk prm p [0xff]).1
        (talker_data lines ++
          List.replicate (256 - (talker_data lines).length)
            (0 : Nat)) := by
    simp only [send_control_program, hread, hsync2, BOOTLOADER_MAX_BYTE_COUNT]
  have hne : (talker_data lines ++
      List.replicate (256 - (talker_data lines).length) (0 : Nat)) ≠ [] := by
    intro hc
    rw [hc] at hlen
    simp at hlen
  obtain ⟨hb1, hb2⟩ := ctrl_go_ok prm hB hBr
    (talker_data lines ++
      List.replicate (256 - (talker_data lines).length) 0).length
    (talker_data lines ++ List.replicate (256 - (talker_data lines).length) 0)
    (tx_chunk prm p [0xff]).1 rest (le_refl _) hne
    (by rw [hsync1]; intro i l; exact hwr i l)
    (by rw [hsync1]; exact hs)
  refine ⟨?_, ?_, hlen⟩
  · rw [hsend]
    exact hb1
  · rw [hsend]
    show (txrx_chunk_control_program_go prm _ _ _).1.txTrace.flatten = _
    rw [hb2, hsync1]
    show ((p.txTrace ++ [[0xff]]) ++ _).flatten = _
    rw [htr, List.nil_append, List.flatten_append,
      chunkList_flatten _ hB]
    simp

/-- A talker S1 line with two data bytes `0xAB 0xCD`. -/
def talker_small_line : List Char :=
  ['S', '1', '0', '5', '0', '0', '0', '0', 'A', 'B', 'C', 'D', 'F', 'F']

/-- Witness for `bootstrap_image_layout`: a two-byte talker image; the wire
carries `0xff` followed by `0xAB 0xCD` and 254 zero bytes. -/
theorem bootstrap_image_layout_witness :
    ((talker_data [talker_small_line]).length ≤ 256) ∧
    ((send_control_program prm64
        (mkPort ((talker_data [talker_small_line] ++
          List.replicate (256 - (talker_data [talker_small_line]).length)
            0).dropLast))
        [talker_small_line]).2 = none) ∧
    ((send_control_program prm64
        (mkPort ((talker_data [talker_small_line] ++
          List.replicate (256 - (talker_data [talker_small_line]).length)
            0).dropLast))
        [talker_small_line]).1.txTrace.flatten =
      0xff :: (talker_data [talker_small_line] ++
        List.replicate (256 - (talker_data [talker_small_line]).length) 0)) :=
  ⟨by decide,
    (bootstrap_image_layout prm64 _ [talker_small_line] [] (by decide)
      (by decide) (by decide) (fun _ _ => rfl) (by simp [mkPort]) rfl).1,
    (bootstrap_image_layout prm64 _ [talker_small_line] [] (by decide)
      (by decide) (by decide) (fun _ _ => rfl) (by simp [mkPort]) rfl).2.1⟩

/-! ## The emitted S-record checksum -/

theorem foldl_mod256 : ∀ (l : List Nat) (a : Nat), a < 256 →
    List.foldl (fun c b => (c + b) % 256) a l = (a + l.sum) % 256 := by
  intro l
  induction l with
  | nil =>
    intro a h
    simp [Nat.mod_eq_of_lt h]
  | cons b bs ih =>
    intro a h
    show List.foldl (fun c b => (c + b) % 256) ((a + b) % 256) bs = _
    rw [ih ((a + b) % 256) (Nat.mod_lt _ (by omega))]
    simp only [List.sum_cons]
    omega

theorem checksum8_eq (l : List Nat) : checksum8 l = l.sum % 256 := by
  show List.foldl (fun c b => (c + b) % 256) 0 l = l.sum % 256
  rw [foldl_mod256 l 0 (by omega), Nat.zero_add]

theorem mk_srec_invariant (lineAddr : Nat) (data : List Nat) :
    ((mk_srec lineAddr data).bc + (mk_srec lineAddr data).addr_hi +
        (mk_srec lineAddr data).addr_lo + (mk_srec lineAddr data).data.sum +
        (mk_srec lineAddr data).checksum) % 256 = 255 ∧
    (mk_srec lineAddr data).checksum =
      255 - ((mk_srec lineAddr data).bc + (mk_srec lineAddr data).addr_hi +
        (mk_srec lineAddr data).addr_lo +
        (mk_srec lineAddr data).data.sum) % 256 := by
  simp only [mk_srec, SREC_ADDR_CHECKSUM_COUNT]
  rw [checksum8_eq]
  simp only [List.sum_append, List.sum_cons, List.sum_nil]
  constructor <;> omega

theorem readmem_records_shape (datalen : Nat) :
    ∀ (bytes : List Nat) (lineAddr : Nat) (cur : List Nat) (r : srec_rec),
      r ∈ readmem_records_go datalen lineAddr cur bytes →
      ∃ a d, r = mk_srec a d := by
  intro bytes
  induction bytes with
  | nil =>
    intro lineAddr cur r hr
    by_cases hc : cur = []
    · simp [readmem_records_go, hc] at hr
    · simp [readmem_records_go, hc] at hr
      exact ⟨lineAddr, cur, hr⟩
  | cons b bs ih =>
    intro lineAddr cur r hr
    show ∃ a d, r = mk_srec a d
    by_cases hflush : (cur ++ [b]).length = datalen
    · simp only [readmem_records_go, if_pos hflush, List.mem_cons] at hr
      rcases hr with hr | hr
      · exact ⟨lineAddr, cur ++ [b], hr⟩
      · exact ih (lineAddr + (cur ++ [b]).length) [] r hr
    · simp only [readmem_records_go, if_neg hflush] at hr
      exact ih lineAddr (cur ++ [b]) r hr

/-- Claim C7: every S1 record emitted by the read-to-file operation
(`readmem`'s emission loop, modelled by `readmem_records`) satisfies
`(byte_count + addr_hi + addr_lo + sum(data) + checksum) % 256 = 0xFF`;
equivalently, the checksum field equals `0xFF` minus the modulo-256 sum of
the byte-count field, the two address bytes, and the data bytes. -/
theorem srec_checksum_invariant (datalen from_addr : Nat) (bytes : List Nat)
    (r : srec_rec) (hr : r ∈ readmem_records datalen from_addr bytes) :
    (r.bc + r.addr_hi + r.addr_lo + r.data.sum + r.checksum) % 256 = 255 ∧
    r.checksum =
      255 - (r.bc + r.addr_hi + r.addr_lo + r.data.sum) % 256 := by
  obtain ⟨a, d, hrd⟩ := readmem_records_shape datalen bytes from_addr [] r hr
  subst hrd
  exact mk_srec_invariant a d

/-- Witness for `srec_checksum_invariant`: reading three bytes `[1, 2, 3]`
from address 0 with 2 data bytes per record emits `mk_srec 0 [1, 2]` first,
and the invariant holds for it. -/
theorem srec_checksum_invariant_witness :
    (mk_srec 0 [1, 2] ∈ readmem_records 2 0 [1, 2, 3]) ∧
    (((mk_srec 0 [1, 2]).bc + (mk_srec 0 [1, 2]).addr_hi +
        (mk_srec 0 [1, 2]).addr_lo + (mk_srec 0 [1, 2]).data.sum +
        (mk_srec 0 [1, 2]).checksum) % 256 = 255) :=
  ⟨by decide,
    (srec_checksum_invariant 2 0 [1, 2, 3] (mk_srec 0 [1, 2]) (by decide)).1⟩

/-! ## The CONFIG-register skip in verification -/

theorem range_filter_succ (n : Nat) (p : Nat → Bool) :
    ((List.range (n + 1)).filter p).length =
      (if p 0 then 1 else 0) +
        ((List.range n).filter (fun i => p (i + 1))).length := by
  rw [List.range_succ_eq_map, List.filter_cons, List.filter_map]
  have hcomp : (p ∘ Nat.succ) = fun i => p (i + 1) := rfl
  by_cases h0 : p 0
  · rw [if_pos h0, if_pos h0, List.length_cons, List.length_map, hcomp]
    omega
  · rw [if_neg h0, if_neg (by simpa using h0), List.length_map, hcomp]
    omega

theorem verify_tally_false_spec :
    ∀ (fb gb : List Nat) (addr : Nat), fb.length = gb.length →
      (verify_tally false addr fb gb).2 =
        ((List.range fb.length).filter
          (fun i => decide ((addr + i) % 65536 = HC11_CONFIG_ADDR))).length ∧
      (verify_tally false addr fb gb).1 =
        ((List.range fb.length).filter
          (fun i => decide (¬((addr + i) % 65536 = HC11_CONFIG_ADDR) ∧
            fb.getD i 0 ≠ gb.getD i 0))).length := by
  intro fb
  induction fb with
  | nil =>
    intro gb addr h
    simp [verify_tally]
  | cons f fs ih =>
    intro gb addr h
    cases gb with
    | nil => simp at h
    | cons g gs =>
      have hlen : fs.length = gs.length := by simpa using h
      obtain ⟨ih2, ih1⟩ := ih gs (addr + 1) hlen
      have hshift2 : ((List.range fs.length).filter
          (fun i => decide ((addr + (i + 1)) % 65536 = HC11_CONFIG_ADDR))).length =
          (verify_tally false (addr + 1) fs gs).2 := by
        rw [ih2]
        congr 1
        apply List.filter_congr
        intro i _
        have harith : addr + (i + 1) = addr + 1 + i := by omega
        rw [harith]
      have hshift1 : ((List.range fs.length).filter
          (fun i => decide (¬((addr + (i + 1)) % 65536 = HC11_CONFIG_ADDR) ∧
            (f :: fs).getD (i + 1) 0 ≠ (g :: gs).getD (i + 1) 0))).length =
          (verify_tally false (addr + 1) fs gs).1 := by
        rw [ih1]
        congr 1
        apply List.filter_congr
        intro i _
        have harith : addr + (i + 1) = addr + 1 + i := by omega
        rw [harith, List.getD_cons_succ, List.getD_cons_succ]
      rw [List.length_cons, range_filter_succ, range_filter_succ]
      by_cases hc : addr % 65536 = HC11_CONFIG_ADDR
      · have ht : verify_tally false addr (f :: fs) (g :: gs) =
            ((verify_tally false (addr + 1) fs gs).1,
              (verify_tally false (addr + 1) fs gs).2 + 1) := by
          simp [verify_tally, hc]
        rw [ht]
        constructor
        · rw [if_pos (by simp [hc]), ← hshift2]
          omega
        · rw [if_neg (by simp [hc]), ← hshift1]
          omega
      · by_cases hfg : f ≠ g
        · have ht : verify_tally false addr (f :: fs) (g :: gs) =
              ((verify_tally false (addr + 1) fs gs).1 + 1,
                (verify_tally false (addr + 1) fs gs).2) := by
            simp [verify_tally, hc, hfg]
          rw [ht]
          constructor
          · rw [if_neg (by simp [hc]), ← hshift2]
            omega
          · rw [if_pos (by simp [hc, hfg]), ← hshift1]
            omega
        · have ht : verify_tally false addr (f :: fs) (g :: gs) =
              verify_tally false (addr + 1) fs gs := by
            simp [verify_tally, hc, hfg]
          rw [ht]
          constructor
          · rw [if_neg (by simp [hc]), ← hshift2]
            omega
          · rw [if_neg (by simp [hc, hfg]), ← hshift1]
            omega

theorem verify_tally_true_spec :
    ∀ (fb gb : List Nat) (addr : Nat), fb.length = gb.length →
      (verify_tally true addr fb gb).2 = 0 ∧
      (verify_tally true addr fb gb).1 =
        ((List.range fb.length).filter
          (fun i => decide (fb.getD i 0 ≠ gb.getD i 0))).length := by
  intro fb
  induction fb with
  | nil =>
    intro gb addr h
    simp [verify_tally]
  | cons f fs ih =>
    intro gb addr h
    cases gb with
    | nil => simp at h
    | cons g gs =>
      have hlen : fs.length = gs.length := by simpa using h
      obtain ⟨ih2, ih1⟩ := ih gs (addr + 1) hlen
      have hshift1 : ((List.range fs.length).filter
          (fun i => decide ((f :: fs).getD (i + 1) 0 ≠
            (g :: gs).getD (i + 1) 0))).length =
          (verify_tally true (addr + 1) fs gs).1 := by
        rw [ih1]
        congr 1
      rw [List.length_cons, range_filter_succ]
      by_cases hfg : f ≠ g
      · have ht : verify_tally true addr (f :: fs) (g :: gs) =
            ((verify_tally true (addr + 1) fs gs).1 + 1,
              (verify_tally true (addr + 1) fs gs).2) := by
          simp [verify_tally, hfg]
        rw [ht]
        refine ⟨ih2, ?_⟩
        rw [if_pos (by simp [hfg]), ← hshift1]
        omega
      · have ht : verify_tally true addr (f :: fs) (g :: gs) =
            verify_tally true (addr + 1) fs gs := by
          simp [verify_tally, hfg]
        rw [ht]
        refine ⟨ih2, ?_⟩
        rw [if_neg (by simp [hfg]), ← hshift1]
        omega

/-- An S1 line with byte-count 7 (4 data bytes `11 22 33 44`) at address
`0x103E`, so its second byte lands on the CONFIG register `0x103F`. -/
def config_line : List Char :=
  ['S', '1', '0', '7', '1', '0', '3', 'E',
   '1', '1', '2', '2', '3', '3', '4', '4', 'F', 'F']

/-- Claim C8: in the verify operation (`readmem_verify`) and in the
post-write verification of write-from-file (`writemem_file`), whose per-byte
comparison loop is `verify_tally`: when `verify_config` is false, every byte
whose 16-bit address equals `0x103F` is counted as ignored and never as
mismatched, regardless of the value read back — the ignored tally is exactly
the number of positions at the CONFIG address and the mismatch tally counts
only differing pairs at non-CONFIG addresses; when `verify_config` is true
nothing is ignored and every differing pair counts.  The last two conjuncts
run the scenario on both operations: a line covering `0x103F` with every
byte read back differing yields 3 mismatched and 1 ignored. -/
theorem config_skip_verification (addr : Nat) (fb gb : List Nat)
    (hlen : fb.length = gb.length) :
    ((verify_tally false addr fb gb).2 =
      ((List.range fb.length).filter
        (fun i => decide ((addr + i) % 65536 = HC11_CONFIG_ADDR))).length) ∧
    ((verify_tally false addr fb gb).1 =
      ((List.range fb.length).filter
        (fun i => decide (¬((addr + i) % 65536 = HC11_CONFIG_ADDR) ∧
          fb.getD i 0 ≠ gb.getD i 0))).length) ∧
    ((verify_tally true addr fb gb).2 = 0) ∧
    ((verify_tally true addr fb gb).1 =
      ((List.range fb.length).filter
        (fun i => decide (fb.getD i 0 ≠ gb.getD i 0))).length) ∧
    ((readmem_verify_line prm64 (mkPort [1, 9, 9, 9, 9]) config_line).2 =
      (none, 3, 1)) ∧
    ((writemem_file_line prm64 (mkPort [2, 9, 9, 9, 9]) TALKER_WRITE_CMD
        config_line).2 = (none, 3, 1)) := by
  obtain ⟨hf2, hf1⟩ := verify_tally_false_spec fb gb addr hlen
  obtain ⟨ht2, ht1⟩ := verify_tally_true_spec fb gb addr hlen
  exact ⟨hf2, hf1, ht2, ht1, by decide, by decide⟩

/-- Witness for `config_skip_verification`: four bytes starting at `0x103E`,
all read back differently — exactly one position (the CONFIG register) is
ignored. -/
theorem config_skip_verification_witness :
    (([17, 34, 51, 68] : List Nat).length = ([9, 9, 9, 9] : List Nat).length) ∧
    ((verify_tally false 0x103e [17, 34, 51, 68] [9, 9, 9, 9]).2 =
      ((List.range ([17, 34, 51, 68] : List Nat).length).filter
        (fun i => decide ((0x103e + i) % 65536 = HC11_CONFIG_ADDR))).length) :=
  ⟨by decide,
    (config_skip_verification 0x103e [17, 34, 51, 68] [9, 9, 9, 9]
      (by decide)).1⟩

/-! ## The bulk EEPROM write sequences -/

theorem hexByte_lt (line : List Char) (pos : Nat) : hexByte line pos < 256 :=
  Nat.mod_lt _ (by omega)

theorem hexByte_mod (line : List Char) (pos : Nat) :
    hexByte line pos % 256 = hexByte line pos :=
  Nat.mod_eq_of_lt (hexByte_lt line pos)

theorem write_ee_go_eq (line : List Char) :
    ∀ r addr i, write_ee_go line addr i r =
      ((List.range r).map (fun t =>
        (if (addr + t) % 65536 = HC11_CONFIG_ADDR then
          [(0x103b, 0x06),
           ((addr + t) % 65536, hexByte line (8 + 2 * (i + t))),
           (0x103b, 0x07), (0x103b, 0x00)]
        else
          [(0x103b, 0x16),
           ((addr + t) % 65536, hexByte line (8 + 2 * (i + t))),
           (0x103b, 0x17), (0x103b, 0x00)]) ++
        [(0x103b, 0x02),
         ((addr + t) % 65536, hexByte line (8 + 2 * (i + t))),
         (0x103b, 0x03), (0x103b, 0x00)])).flatten := by
  intro r
  induction r with
  | zero =>
    intro addr i
    simp [write_ee_go]
  | succ r ih =>
    intro addr i
    show (((if addr % 65536 = HC11_CONFIG_ADDR then
        eeprom_bulk_erase addr (hexByte line (8 + 2 * i))
      else eeprom_byte_erase addr (hexByte line (8 + 2 * i))) ++
        eeprom_prog_byte addr (hexByte line (8 + 2 * i))) ++
      write_ee_go line (addr + 1) (i + 1) r) = _
    rw [ih (addr + 1) (i + 1), List.range_succ_eq_map, List.map_cons,
      List.map_map, List.flatten_cons]
    congr 1
    · show (((if addr % 65536 = HC11_CONFIG_ADDR then
          eeprom_bulk_erase addr (hexByte line (8 + 2 * i))
        else eeprom_byte_erase addr (hexByte line (8 + 2 * i))) ++
          eeprom_prog_byte addr (hexByte line (8 + 2 * i)))) =
        ((if (addr + 0) % 65536 = HC11_CONFIG_ADDR then
          [(0x103b, 0x06),
           ((addr + 0) % 65536, hexByte line (8 + 2 * (i + 0))),
           (0x103b, 0x07), (0x103b, 0x00)]
        else
          [(0x103b, 0x16),
           ((addr + 0) % 65536, hexByte line (8 + 2 * (i + 0))),
           (0x103b, 0x17), (0x103b, 0x00)]) ++
        [(0x103b, 0x02),
         ((addr + 0) % 65536, hexByte line (8 + 2 * (i + 0))),
         (0x103b, 0x03), (0x103b, 0x00)])
      simp only [Nat.add_zero]
      simp [eeprom_bulk_erase, eeprom_byte_erase, eeprom_prog_byte,
        writemem_byte, hexByte_mod]
    · congr 1
      apply List.map_congr_left
      intro t _
      show ((if (addr + 1 + t) % 65536 = HC11_CONFIG_ADDR then
          [(0x103b, 0x06),
           ((addr + 1 + t) % 65536, hexByte line (8 + 2 * (i + 1 + t))),
           (0x103b, 0x07), (0x103b, 0x00)]
        else
          [(0x103b, 0x16),
           ((addr + 1 + t) % 65536, hexByte line (8 + 2 * (i + 1 + t))),
           (0x103b, 0x17), (0x103b, 0x00)]) ++
        [(0x103b, 0x02),
         ((addr + 1 + t) % 65536, hexByte line (8 + 2 * (i + 1 + t))),
         (0x103b, 0x03), (0x103b, 0x00)]) = _
      have h1 : addr + 1 + t = addr + (t + 1) := by omega
      have h2 : i + 1 + t = i + (t + 1) := by omega
      rw [h1, h2]
      rfl

/-- Claim C9: for each data byte of each accepted S1 record, TBug11's bulk
EEPROM write first erases the target address — with the bulk-erase control
sequence (`0x06` to `0x103B`, dummy byte to the address, `0x07` to `0x103B`,
`0x00` to `0x103B`) when the address is the CONFIG register `0x103F`, and
the byte-erase sequence (`0x16`, dummy byte, `0x17`, `0x00`) otherwise — and
then programs it with `0x02` to the latch register `0x103B`, the data byte
to the target address, `0x03` to `0x103B`, the delay, and `0x00` to
`0x103B`.  The per-line poke trace is exactly the concatenation of these
eight-poke blocks in data order. -/
theorem write_ee_sequences (line : List Char)
    (h8 : 8 ≤ line.length) (hS1 : line.take 2 = ['S', '1']) :
    write_ee_line line =
      ((List.range ((hexByte line 2 + 253) % 256)).map (fun t =>
        (if (hexQuad line 4 + t) % 65536 = HC11_CONFIG_ADDR then
          [(0x103b, 0x06),
           ((hexQuad line 4 + t) % 65536, hexByte line (8 + 2 * t)),
           (0x103b, 0x07), (0x103b, 0x00)]
        else
          [(0x103b, 0x16),
           ((hexQuad line 4 + t) % 65536, hexByte line (8 + 2 * t)),
           (0x103b, 0x17), (0x103b, 0x00)]) ++
        [(0x103b, 0x02),
         ((hexQuad line 4 + t) % 65536, hexByte line (8 + 2 * t)),
         (0x103b, 0x03), (0x103b, 0x00)])).flatten := by
  show (if 8 ≤ line.length ∧ line.take 2 = ['S', '1'] then
      write_ee_go line (hexQuad line 4) 0 ((hexByte line 2 + 253) % 256)
    else []) = _
  rw [if_pos ⟨h8, hS1⟩, write_ee_go_eq line _ (hexQuad line 4) 0]
  congr 1
  apply List.map_congr_left
  intro t _
  simp only [Nat.zero_add]

/-- An S1 line whose single data byte `0xAA` targets the CONFIG register. -/
def config_write_line : List Char :=
  ['S', '1', '0', '4', '1', '0', '3', 'F', 'A', 'A', 'F', 'C']

/-- Witness for `write_ee_sequences`: writing one byte to `0x103F` uses the
bulk-erase sequence followed by the program sequence. -/
theorem write_ee_sequences_witness :
    write_ee_line config_write_line =
      [(0x103b, 0x06), (0x103f, 0xaa), (0x103b, 0x07), (0x103b, 0x00),
       (0x103b, 0x02), (0x103f, 0xaa), (0x103b, 0x03), (0x103b, 0x00)] := by
  rw [write_ee_sequences config_write_line (by decide) (by decide)]
  decide

/-! ## Records with a byte-count field below 3 -/

/-- An S1 line whose byte-count field is `0x00`, with 252 `0xAA` data pairs
present so every `substr` the loops perform stays inside the line. -/
def short_count_line0 : List Char :=
  ['S', '1', '0', '0', '0', '0', '0', '0'] ++ List.replicate 504 'A'

/-- An S1 line whose byte-count field is `0x01` (254 `0xAA` pairs). -/
def short_count_line1 : List Char :=
  ['S', '1', '0', '1', '0', '0', '0', '0'] ++ List.replicate 508 'A'

/-- An S1 line whose byte-count field is `0x02` at address `0x1000`
(255 `0xBB` pairs). -/
def short_count_line2 : List Char :=
  ['S', '1', '0', '2', '1', '0', '0', '0'] ++ List.replicate 510 'B'

set_option maxRecDepth 1000000 in
/-- Claim C10: the verify and write-from-file operations compute the
data-byte count as `(byte-count field - 3) mod 256` (`uint8_t` subtraction,
modelled as `(field + 253) % 256`) with no check that the field is at least
3.  A record whose byte-count field is 0, 1 or 2 yields a count of 253, 254
or 255 and drives a full protocol exchange of that many bytes instead of
being rejected: the engine sends the command byte and the parameter bytes
carrying that count, then reads (verify) or writes (write-from-file) that
many payload bytes, completing without error. -/
theorem datacount_wraparound_no_reject :
    (((hexByte short_count_line0 2 + 253) % 256 = 253) ∧
      ((readmem_verify_line prm64 (mkPort (1 :: List.replicate 253 170))
          short_count_line0).2.1 = none) ∧
      ((readmem_verify_line prm64 (mkPort (1 :: List.replicate 253 170))
          short_count_line0).1.txTrace = [[1], [253, 0, 0]]) ∧
      ((readmem_verify_line prm64 (mkPort (1 :: List.replicate 253 170))
          short_count_line0).1.stream = [])) ∧
    (((hexByte short_count_line1 2 + 253) % 256 = 254) ∧
      ((writemem_file_line prm64 (mkPort (2 :: List.replicate 254 170))
          TALKER_WRITE_CMD short_count_line1).2.1 = none) ∧
      ((writemem_file_line prm64 (mkPort (2 :: List.replicate 254 170))
          TALKER_WRITE_CMD short_count_line1).1.txTrace.flatten =
        [2] ++ [254, 0, 0] ++ List.replicate 254 170) ∧
      ((writemem_file_line prm64 (mkPort (2 :: List.replicate 254 170))
          TALKER_WRITE_CMD short_count_line1).1.stream = [])) ∧
    (((hexByte short_count_line2 2 + 253) % 256 = 255) ∧
      ((readmem_verify_line prm64 (mkPort (1 :: List.replicate 255 187))
          short_count_line2).2.1 = none) ∧
      ((readmem_verify_line prm64 (mkPort (1 :: List.replicate 255 187))
          short_count_line2).1.txTrace = [[1], [255, 16, 0]]) ∧
      ((readmem_verify_line prm64 (mkPort (1 :: List.replicate 255 187))
          short_count_line2).1.stream = [])) := by
  refine ⟨⟨by decide, by decide, by decide, by decide⟩,
    ⟨by decide, by decide, by decide, by decide⟩,
    ⟨by decide, by decide, by decide, by decide⟩⟩

/-! ## The echo verification policies -/

theorem verify_echo_none_iff :
    ∀ (t r : List Nat), t.length = r.length →
      (verify_echo t r = none ↔
        ∀ i, i < t.length → t.getD i 0 = r.getD i 0) := by
  intro t
  induction t with
  | nil =>
    intro r h
    simp [verify_echo]
  | cons a as ih =>
    intro r h
    cases r with
    | nil => simp at h
    | cons b bs =>
      have hlen : as.length = bs.length := by simpa using h
      show ((if a ≠ b then some (TruErr.echoMismatch a b)
        else verify_echo as bs) = none) ↔ _
      by_cases hab : a = b
      · rw [if_neg (by simp [hab]), ih bs hlen]
        constructor
        · intro hall i hi
          cases i with
          | zero => simpa using hab
          | succ k =>
            simp only [List.getD_cons_succ]
            exact hall k (by simpa using hi)
        · intro hall i hi
          have := hall (i + 1) (by simp; omega)
          simpa using this
      · rw [if_pos hab]
        constructor
        · intro hcon; simp at hcon
        · intro hall
          exact absurd (by simpa using hall 0 (by simp)) hab

theorem verify_echo_com_none_iff :
    ∀ (t r : List Nat), t.length = r.length →
      (∀ b ∈ t, b < 256) → (∀ b ∈ r, b < 256) →
      (verify_echo_com t r = none ↔
        ∀ i, i < t.length → r.getD i 0 = 255 - t.getD i 0) := by
  intro t
  induction t with
  | nil =>
    intro r h _ _
    simp [verify_echo_com]
  | cons a as ih =>
    intro r h ht hr
    cases r with
    | nil => simp at h
    | cons b bs =>
      have hlen : as.length = bs.length := by simpa using h
      have ha : a < 256 := ht a (by simp)
      have hb : b < 256 := hr b (by simp)
      have hbmod : b % 256 = b := Nat.mod_eq_of_lt hb
      show ((if a ≠ 255 - b % 256 then
        some (TruErr.echoMismatch a (255 - b % 256))
        else verify_echo_com as bs) = none) ↔ _
      by_cases hab : a = 255 - b % 256
      · rw [if_neg (by simp [hab]),
          ih bs hlen (fun x hx => ht x (by simp [hx]))
            (fun x hx => hr x (by simp [hx]))]
        constructor
        · intro hall i hi
          cases i with
          | zero =>
            simp only [List.getD_cons_zero]
            rw [hbmod] at hab
            omega
          | succ k =>
            simp only [List.getD_cons_succ]
            exact hall k (by simpa using hi)
        · intro hall i hi
          have := hall (i + 1) (by simp; omega)
          simpa using this
      · rw [if_pos hab]
        constructor
        · intro hcon; simp at hcon
        · intro hall
          have h0 := hall 0 (by simp)
          simp only [List.getD_cons_zero] at h0
          rw [hbmod] at hab
          omega

theorem verify_echo_first_mismatch :
    ∀ (t r : List Nat) (j : Nat), t.length = r.length → j < t.length →
      (∀ i, i < j → t.getD i 0 = r.getD i 0) →
      t.getD j 0 ≠ r.getD j 0 →
      verify_echo t r =
        some (TruErr.echoMismatch (t.getD j 0) (r.getD j 0)) := by
  intro t
  induction t with
  | nil =>
    intro r j h hj _ _
    simp at hj
  | cons a as ih =>
    intro r j h hj hpre hne
    cases r with
    | nil => simp at h
    | cons b bs =>
      have hlen : as.length = bs.length := by simpa using h
      show (if a ≠ b then some (TruErr.echoMismatch a b)
        else verify_echo as bs) = _
      cases j with
      | zero =>
        simp only [List.getD_cons_zero] at hne ⊢
        rw [if_pos hne]
      | succ k =>
        have hab : a = b := by simpa using hpre 0 (by omega)
        rw [if_neg (by simp [hab])]
        simp only [List.getD_cons_succ] at hne ⊢
        exact ih bs k hlen (by simpa using hj)
          (fun i hi => by simpa using hpre (i + 1) (by omega)) hne

theorem verify_echo_com_first_mismatch :
    ∀ (t r : List Nat) (j : Nat), t.length = r.length → j < t.length →
      (∀ b ∈ t, b < 256) → (∀ b ∈ r, b < 256) →
      (∀ i, i < j → r.getD i 0 = 255 - t.getD i 0) →
      r.getD j 0 ≠ 255 - t.getD j 0 →
      verify_echo_com t r =
        some (TruErr.echoMismatch (t.getD j 0) (255 - r.getD j 0)) := by
  intro t
  induction t with
  | nil =>
    intro r j h hj _ _ _ _
    simp at hj
  | cons a as ih =>
    intro r j h hj ht hr hpre hne
    cases r with
    | nil => simp at h
    | cons b bs =>
      have hlen : as.length = bs.length := by simpa using h
      have ha : a < 256 := ht a (by simp)
      have hb : b < 256 := hr b (by simp)
      have hbmod : b % 256 = b := Nat.mod_eq_of_lt hb
      show (if a ≠ 255 - b % 256 then
        some (TruErr.echoMismatch a (255 - b % 256))
        else verify_echo_com as bs) = _
      cases j with
      | zero =>
        simp only [List.getD_cons_zero] at hne ⊢
        rw [if_pos (by rw [hbmod]; omega), hbmod]
      | succ k =>
        have hab : b = 255 - a := by simpa using hpre 0 (by omega)
        rw [if_neg (by rw [hbmod]; omega)]
        simp only [List.getD_cons_succ] at hne ⊢
        exact ih bs k hlen (by simpa using hj)
          (fun x hx => ht x (by simp [hx]))
          (fun x hx => hr x (by simp [hx]))
          (fun i hi => by simpa using hpre (i + 1) (by omega)) hne

/-- Claim C4 counterexample: `verify_echo_com [1] [1]` fails (as it should:
1 is not the complement of 1) but the error it raises carries `254` — the
bitwise complement of the received byte — in its received field, not the
received byte `1` itself; and the error carries no index at all: mismatches
of the same byte values at index 0 and at index 1 produce identical errors,
so the offending position cannot be part of the error. -/
theorem echo_error_payload_counterexample :
    (verify_echo_com [1] [1] = some (TruErr.echoMismatch 1 254)) ∧
    (verify_echo_com [1] [1] ≠ some (TruErr.echoMismatch 1 1)) ∧
    (verify_echo [5, 9] [7, 9] = verify_echo [9, 5] [9, 7]) ∧
    (verify_echo [5, 9] [7, 9] = some (TruErr.echoMismatch 5 7)) := by
  refine ⟨by decide, by decide, by decide, by decide⟩

/-- Claim C4 (amended): direct echo verification succeeds if and only if
every received byte equals the corresponding transmitted byte, and
complement echo verification succeeds if and only if every received byte
equals the bitwise complement of the transmitted byte; each fails on the
first mismatching pair.  The error carries the sent byte and, for the
direct check, the received byte — the complement check instead reports the
bitwise complement of the received byte — and the offending index is not
part of the error. -/
theorem echo_policies_amended (t r : List Nat) (hlen : t.length = r.length)
    (ht : ∀ b ∈ t, b < 256) (hr : ∀ b ∈ r, b < 256) :
    ((verify_echo t r = none) ↔
      ∀ i, i < t.length → t.getD i 0 = r.getD i 0) ∧
    ((verify_echo_com t r = none) ↔
      ∀ i, i < t.length → r.getD i 0 = 255 - t.getD i 0) ∧
    (∀ j, j < t.length → (∀ i, i < j → t.getD i 0 = r.getD i 0) →
      t.getD j 0 ≠ r.getD j 0 →
      verify_echo t r =
        some (TruErr.echoMismatch (t.getD j 0) (r.getD j 0))) ∧
    (∀ j, j < t.length → (∀ i, i < j → r.getD i 0 = 255 - t.getD i 0) →
      r.getD j 0 ≠ 255 - t.getD j 0 →
      verify_echo_com t r =
        some (TruErr.echoMismatch (t.getD j 0) (255 - r.getD j 0))) :=
  ⟨verify_echo_none_iff t r hlen,
   verify_echo_com_none_iff t r hlen ht hr,
   fun j hj hpre hne => verify_echo_first_mismatch t r j hlen hj hpre hne,
   fun j hj hpre hne =>
     verify_echo_com_first_mismatch t r j hlen hj ht hr hpre hne⟩

/-- Witness for `echo_policies_amended` at `t = [1, 2]`, `r = [254, 253]`
(a correct complement echo). -/
theorem echo_policies_amended_witness :
    (([1, 2] : List Nat).length = ([254, 253] : List Nat).length) ∧
    (verify_echo_com [1, 2] [254, 253] = none ↔
      ∀ i, i < ([1, 2] : List Nat).length →
        ([254, 253] : List Nat).getD i 0 = 255 - ([1, 2] : List Nat).getD i 0) :=
  ⟨by decide,
    (echo_policies_amended [1, 2] [254, 253] (by decide)
      (by decide) (by decide)).2.1⟩
